import Mathlib

/-!
# Elite Media Player: playback controller, playlist cursor and progress label

A shallow embedding of `elite_media_player.go`.  The controller state is the
`MediaPlayer` struct; every method is a function on that state.  The decoder
gateway (`os.Open`, `mp3.Decode`, `wav.Decode`) is an environment `Env`.
Widgets are outside the state: calls that only repaint (`SetIcon`, `SetText`,
`Refresh`, dialogs) are dropped, and a slider handler is a function of the
value the widget passes to it.  `widget.List.Select` may re-enter the
`OnSelected` handler; whether it does is recorded by a boolean on the
operations that call it, and every general result below holds for both
values.

float64 arithmetic is modelled bit-exactly for finite non-negative values in
the normal range: `f64round n d` is the float64 nearest to `n / d`
(53-bit significand, ties to even).
-/

namespace EliteMediaPlayer

/-! ## float64 -/

/-- Binary logarithm by repeated halving; `fuel` bounds the number of halvings. -/
def log2Fuel : Nat → Nat → Nat
  | 0, _ => 0
  | fuel + 1, n => if 2 ≤ n then log2Fuel fuel (n / 2) + 1 else 0

/-- The position of the leading bit of `n` (zero for `n ≤ 1`). -/
def ilog2 (n : Nat) : Nat := log2Fuel n n

/-- A finite non-negative float64, the rational `num / 2 ^ k`. -/
structure F64 where
  num : Nat
  k : Nat
  deriving DecidableEq

/-- The 53-bit significand of `n / d` after rounding to nearest, ties to even,
together with the exponent `t` of the divisor `d * 2 ^ t` used to obtain it:
the rounded value is `significand * 2 ^ t / 2 ^ (ilog2 d + 53)`. -/
def f64sig (n d : Nat) : Nat × Nat :=
  let a := ilog2 n
  let b := ilog2 d
  let t := if d * 2 ^ a ≤ n * 2 ^ b then a + 1 else a
  let q := (n * 2 ^ (b + 53)) / (d * 2 ^ t)
  let r := (n * 2 ^ (b + 53)) % (d * 2 ^ t)
  (if d * 2 ^ t < 2 * r ∨ (2 * r = d * 2 ^ t ∧ q % 2 = 1) then q + 1 else q, t)

/-- The float64 nearest to the rational `n / d` (`d > 0`), ties to even.
Overflow and the reduced precision of subnormal results are not modelled. -/
def f64round (n d : Nat) : F64 :=
  if n = 0 then ⟨0, 0⟩ else
  let s := f64sig n d
  let e := ilog2 d + 53
  if e ≤ s.2 then ⟨s.1 * 2 ^ (s.2 - e), 0⟩ else ⟨s.1, e - s.2⟩

/-- The rational value of a float64. -/
def F64.val (x : F64) : ℚ := (x.num : ℚ) / 2 ^ x.k

/-- The conversion `int(x)` of Go for a non-negative float64: truncation toward zero. -/
def F64.trunc (x : F64) : Nat := x.num / 2 ^ x.k

/-- The conversion `float64(n)` of Go for a non-negative integer. -/
def F64.ofNat (n : Nat) : F64 := f64round n 1

/-- float64 multiplication. -/
def F64.mul (x y : F64) : F64 := f64round (x.num * y.num) (2 ^ (x.k + y.k))

/-- float64 division by a non-zero divisor. -/
def F64.div (x y : F64) : F64 := f64round (x.num * 2 ^ y.k) (y.num * 2 ^ x.k)

/-- float64 addition. -/
def F64.add (x y : F64) : F64 :=
  f64round (x.num * 2 ^ y.k + y.num * 2 ^ x.k) (2 ^ (x.k + y.k))

/-- A signed float64: sign and magnitude. -/
structure SF64 where
  neg : Bool
  mag : F64
  deriving DecidableEq

/-- The rational value of a signed float64. -/
def SF64.val (x : SF64) : ℚ := if x.neg then -x.mag.val else x.mag.val

/-- The float64 difference `vol - 1`. -/
def subOne (vol : F64) : SF64 :=
  if 2 ^ vol.k < vol.num then ⟨false, f64round (vol.num - 2 ^ vol.k) (2 ^ vol.k)⟩
  else if vol.num = 2 ^ vol.k then ⟨false, ⟨0, 0⟩⟩
  else ⟨true, f64round (2 ^ vol.k - vol.num) (2 ^ vol.k)⟩

/-- The 64-bit `int` of Go: the representative of `x` modulo `2 ^ 64` in
`[-2 ^ 63, 2 ^ 63)`. -/
def wrapInt64 (x : Int) : Int := (x + 2 ^ 63) % 2 ^ 64 - 2 ^ 63

/-! ## time.Duration and beep.SampleRate -/

/-- The constant `time.Second`, in nanoseconds. -/
def timeSecond : Nat := 1000000000

/-- The constant `time.Minute`, in nanoseconds. -/
def timeMinute : Nat := 60 * timeSecond

/-- The method `Duration.Seconds`: `float64(d / Second) + float64(d % Second) / 1e9`. -/
def durationSeconds (d : Nat) : F64 :=
  F64.add (F64.ofNat (d / timeSecond)) (F64.div (F64.ofNat (d % timeSecond)) (F64.ofNat 1000000000))

/-- The method `Duration.Minutes`: `float64(d / Minute) + float64(d % Minute) / (60 * 1e9)`. -/
def durationMinutes (d : Nat) : F64 :=
  F64.add (F64.ofNat (d / timeMinute)) (F64.div (F64.ofNat (d % timeMinute)) (F64.ofNat 60000000000))

/-- The method `SampleRate.N(d)` of beep:
`int(d * time.Duration(sr) / time.Second)`, a product and a truncated
quotient of 64-bit integers. -/
def sampleRateN (sr : Int) (d : Int) : Int :=
  Int.tdiv (wrapInt64 (d * sr)) timeSecond

/-! ## Paths -/

/-- Scan of `filepath.Ext` from the end of the path: stops at a separator
(no extension) or at the last dot of the final element. -/
def extAux : List Char → List Char → List Char
  | [], _ => []
  | c :: rest, acc =>
    if c = '/' then [] else if c = '.' then '.' :: acc else extAux rest (c :: acc)

/-- The function `filepath.Ext`, with `/` as the path separator. -/
def filepathExt (path : String) : String := String.mk (extAux path.data.reverse [])

/-- The function `strings.ToLower`, on the ASCII letters (no other character lower-cases to
a character of `.mp3` or `.wav`). -/
def stringsToLower (s : String) : String := String.mk (s.data.map Char.toLower)

/-! ## Controller state -/

/-- The struct `beep.Format`. -/
structure Format where
  sampleRate : Nat
  numChannels : Nat
  precision : Nat
  deriving DecidableEq

/-- A decoded stream (`beep.StreamSeekCloser`): the identity of the decoder
object, the path of the file it reads, `Len()` and `Position()`. -/
structure Stream where
  id : Nat
  file : String
  len : Nat
  pos : Nat
  deriving DecidableEq

/-- The struct `beep.Volume`: the wrapped stream, `Base` and the `Volume` exponent. -/
structure Volume where
  streamer : Nat
  base : Nat
  volume : SF64
  deriving DecidableEq

/-- The decoder gateway: whether `os.Open` succeeds on a path and what
`mp3.Decode` / `wav.Decode` return for it (`none` is a decoder error,
otherwise the stream length and format). -/
structure Env where
  osOpen : String → Bool
  mp3Decode : String → Option (Nat × Format)
  wavDecode : String → Option (Nat × Format)

/-- The fields of `MediaPlayer` that are not widgets, and three ghost fields:
`nextId` names the next decoder object, `closed` logs every `Close()` call by
stream identity, `tasks` counts the `updateProgress` goroutines that have
been started and have not returned. -/
structure MediaPlayer where
  playlist : List String
  current : Int
  streamer : Option Stream
  format : Format
  ctrl : Option Nat
  resampler : Option Nat
  volume : Option Volume
  isPlaying : Bool
  nextId : Nat
  closed : List Nat
  tasks : Nat
  deriving DecidableEq

/-- The constructor `NewMediaPlayer`: empty playlist, `current = -1`, nothing
loaded, not playing. -/
def NewMediaPlayer : MediaPlayer :=
  { playlist := [], current := -1, streamer := none, format := ⟨0, 0, 0⟩, ctrl := none,
    resampler := none, volume := none, isPlaying := false, nextId := 0, closed := [],
    tasks := 0 }

/-- The decode step of `playTrack` after the file was opened: dispatch on the
lower-cased extension.  `none` is the unsupported-format return,
`some none` a decoder error. -/
def decodeFile (env : Env) (file : String) : Option (Option (Nat × Format)) :=
  let e := stringsToLower (filepathExt file)
  if e = ".mp3" then some (env.mp3Decode file)
  else if e = ".wav" then some (env.wavDecode file)
  else none

/-- The entry `p.playlist[p.current]`. -/
def currentTrack (p : MediaPlayer) : String := p.playlist.getD p.current.toNat ""

/-- The method `playTrack`.  Every failure path returns before any field is written.  On
success the previous stream, if any, is closed, the new stream and its
wrappers are installed (a fresh `beep.Volume` has `Volume = 0`), the playing
flag is set and one `updateProgress` goroutine is started; nothing in the
program sends on `progressUpdate`, so a started goroutine never returns. -/
def playTrack (env : Env) (p : MediaPlayer) : MediaPlayer :=
  if p.current < 0 ∨ p.current ≥ p.playlist.length then p else
  let file := currentTrack p
  if env.osOpen file = false then p else
  match decodeFile env file with
  | none => p
  | some none => p
  | some (some (len, format)) =>
    { p with
      closed := match p.streamer with
        | some s => s.id :: p.closed
        | none => p.closed
      streamer := some ⟨p.nextId, file, len, 0⟩
      format := format
      ctrl := some p.nextId
      volume := some ⟨p.nextId, 2, ⟨false, ⟨0, 0⟩⟩⟩
      resampler := some p.nextId
      isPlaying := true
      nextId := p.nextId + 1
      tasks := p.tasks + 1 }

/-- The method `pauseTrack`: clears the playing flag. -/
def pauseTrack (p : MediaPlayer) : MediaPlayer := { p with isPlaying := false }

/-- The method `stopTrack`: clears the playing flag, closes the stream and sets the
handle to nil. -/
def stopTrack (p : MediaPlayer) : MediaPlayer :=
  match p.streamer with
  | some s => { p with isPlaying := false, closed := s.id :: p.closed, streamer := none }
  | none => { p with isPlaying := false }

/-- The method `togglePlay`. -/
def togglePlay (env : Env) (p : MediaPlayer) : MediaPlayer :=
  if p.current < 0 ∨ p.current ≥ p.playlist.length then p
  else if p.isPlaying then pauseTrack p else playTrack env p

/-- The `playlistUI.OnSelected` handler: `p.current = id; p.playTrack()`. -/
def playlistOnSelected (env : Env) (id : Int) (p : MediaPlayer) : MediaPlayer :=
  playTrack env { p with current := id }

/-- The call `playlistUI.Select(id)`: the list widget may call `OnSelected(id)`. -/
def playlistSelect (env : Env) (fires : Bool) (id : Int) (p : MediaPlayer) : MediaPlayer :=
  if fires then playlistOnSelected env id p else p

/-- The method `nextTrack`.  The operator `%` of Go is the truncated remainder. -/
def nextTrack (env : Env) (fires : Bool) (p : MediaPlayer) : MediaPlayer :=
  if p.playlist.length = 0 then p else
  let p1 := stopTrack p
  let p2 := { p1 with current := Int.tmod (p1.current + 1) p1.playlist.length }
  let p3 := playlistSelect env fires p2.current p2
  playTrack env p3

/-- The method `prevTrack`. -/
def prevTrack (env : Env) (fires : Bool) (p : MediaPlayer) : MediaPlayer :=
  if p.playlist.length = 0 then p else
  let p1 := stopTrack p
  let c := p1.current - 1
  let p2 := { p1 with current := if c < 0 then (p1.playlist.length : Int) - 1 else c }
  let p3 := playlistSelect env fires p2.current p2
  playTrack env p3

/-- What the file dialog hands to the `openFiles` callback. -/
inductive FileChoice where
  | failed
  | cancelled
  | file (path : String)
  deriving DecidableEq

/-- The callback of `openFiles`: appends the chosen path; when the cursor is
the sentinel it becomes `0` and the list selects row `0`. -/
def openFiles (env : Env) (fires : Bool) (c : FileChoice) (p : MediaPlayer) : MediaPlayer :=
  match c with
  | .failed => p
  | .cancelled => p
  | .file path =>
    let p1 := { p with playlist := p.playlist ++ [path] }
    if p1.current = -1 then playlistSelect env fires 0 { p1 with current := 0 } else p1

/-- The method `clearPlaylist`. -/
def clearPlaylist (p : MediaPlayer) : MediaPlayer :=
  { stopTrack p with playlist := [], current := -1 }

/-- The `volumeCtrl.OnChanged` handler, called by the slider with the value
`vol` it has taken: writes `vol - 1` into the current `beep.Volume`, if there
is one. -/
def volumeCtrlOnChanged (vol : F64) (p : MediaPlayer) : MediaPlayer :=
  match p.volume with
  | some v => { p with volume := some { v with volume := subOne vol } }
  | none => p

/-- The `timeSlider.OnChanged` handler: the argument of the `Seek` call it
issues, `int(float64(Len()) * pos)`; `none` when no stream is loaded. -/
def timeSliderOnChanged (pos : F64) (p : MediaPlayer) : Option Int :=
  match p.streamer with
  | none => none
  | some s => some (F64.trunc (F64.mul (F64.ofNat s.len) pos) : Nat)

/-- The Right-key handler: the argument of the `Seek` call. -/
def keyRight (p : MediaPlayer) : Option Int :=
  match p.streamer with
  | none => none
  | some s =>
    let newPos := wrapInt64 (s.pos + sampleRateN p.format.sampleRate (5 * timeSecond))
    some (if newPos ≥ s.len then wrapInt64 (s.len - 1) else newPos)

/-- The Left-key handler: the argument of the `Seek` call. -/
def keyLeft (p : MediaPlayer) : Option Int :=
  match p.streamer with
  | none => none
  | some s =>
    let newPos := wrapInt64 (s.pos - sampleRateN p.format.sampleRate (5 * timeSecond))
    some (if newPos < 0 then 0 else newPos)

/-! ## Progress label -/

/-- The conversion `time.Duration(float64(time.Second) * float64(x) / float64(sampleRate))`. -/
def sampleDuration (x sampleRate : Nat) : Nat :=
  F64.trunc (F64.div (F64.mul (F64.ofNat timeSecond) (F64.ofNat x)) (F64.ofNat sampleRate))

/-- The verb `%02d` on a non-negative integer. -/
def fmt02d (n : Nat) : String :=
  let s := Nat.repr n
  if s.length < 2 then "0" ++ s else s

/-- The call `fmt.Sprintf` with the format `%02d:%02d / %02d:%02d`. -/
def sprintfLabel (a b c d : Nat) : String :=
  fmt02d a ++ ":" ++ fmt02d b ++ " / " ++ fmt02d c ++ ":" ++ fmt02d d

/-- One tick of `updateProgress`: `none` when the tick is skipped, otherwise
the value given to `timeSlider.SetValue` and the text of `timeLabel`.  (The
source line that computes `currentTime` lacks its closing parenthesis; it is
read as the `totalTime` line below it.) -/
def updateProgressTick (p : MediaPlayer) : Option (F64 × String) :=
  match p.streamer with
  | none => none
  | some s =>
    if p.isPlaying = false then none else
    let current := F64.div (F64.ofNat s.pos) (F64.ofNat s.len)
    let currentTime := sampleDuration s.pos p.format.sampleRate
    let totalTime := sampleDuration s.len p.format.sampleRate
    some (current, sprintfLabel
      ((durationMinutes currentTime).trunc % 60) ((durationSeconds currentTime).trunc % 60)
      ((durationMinutes totalTime).trunc % 60) ((durationSeconds totalTime).trunc % 60))

/-! ## Commands and reachable states -/

/-- The user commands that mutate the controller. -/
inductive Cmd where
  | openFiles (fires : Bool) (c : FileChoice)
  | clearPlaylist
  | playTrack
  | togglePlay
  | stopTrack
  | nextTrack (fires : Bool)
  | prevTrack (fires : Bool)

/-- One command, run against the decoder gateway as it is at that moment. -/
def step (env : Env) (c : Cmd) (p : MediaPlayer) : MediaPlayer :=
  match c with
  | .openFiles fires ch => openFiles env fires ch p
  | .clearPlaylist => clearPlaylist p
  | .playTrack => playTrack env p
  | .togglePlay => togglePlay env p
  | .stopTrack => stopTrack p
  | .nextTrack fires => nextTrack env fires p
  | .prevTrack fires => prevTrack env fires p

/-- A sequence of commands, left to right. -/
def run (env : Env) (cs : List Cmd) (p : MediaPlayer) : MediaPlayer :=
  cs.foldl (fun s c => step env c s) p

/-- States reachable from `NewMediaPlayer`; the gateway may differ from one
command to the next. -/
inductive Reachable : MediaPlayer → Prop where
  | init : Reachable NewMediaPlayer
  | step (env : Env) (c : Cmd) {p : MediaPlayer} : Reachable p → Reachable (step env c p)

/-- A gateway on which every file opens and decodes to `len` samples at
`rate` Hz. -/
def envAll (len rate : Nat) : Env :=
  { osOpen := fun _ => true
    mp3Decode := fun _ => some (len, ⟨rate, 2, 2⟩)
    wavDecode := fun _ => some (len, ⟨rate, 2, 2⟩) }

/-- A gateway on which no file can be opened. -/
def envNone : Env :=
  { osOpen := fun _ => false, mp3Decode := fun _ => none, wavDecode := fun _ => none }

/-! ## Predicates used in the statements -/

/-- A rational `c * 2 ^ i / 2 ^ j` with a 53-bit `c`: exactly representable
as a float64 (in the modelled range). -/
def Rep (t : ℚ) : Prop := ∃ c i j : Nat, c ≤ 2 ^ 53 ∧ t = (c : ℚ) * 2 ^ i / 2 ^ j

/-- The value `v` is a correct rounding of `x`: no representable number lies
strictly between them, and the relative error is below `2 ^ (-53)`. -/
def Rounds (x v : ℚ) : Prop :=
  (∀ t, Rep t → x ≤ t → v ≤ t) ∧ (∀ t, Rep t → t ≤ x → t ≤ v) ∧
  (∀ c j : Nat, 0 < c → x ≤ ((c : ℚ) / 2 ^ j) * (1 - 1 / 2 ^ 53) → v < (c : ℚ) / 2 ^ j)

/-- The seek target as the specification words it: `round(f * L)` (halves
rounded up) clamped to `[0, L - 1]`, for the fraction `f = num / 2 ^ k`. -/
def specSeekTarget (L : Nat) (f : F64) : Int :=
  max 0 (min (((2 * L * f.num + 2 ^ f.k) / (2 * 2 ^ f.k) : Nat) : Int) ((L : Int) - 1))

/-- A player with `a.mp3` loaded and playing (adding the first file selects
row 0, whose handler loads it): a stream of `len` samples at `rate` Hz,
observed at position `pos`. -/
def loadedPlayer (len rate pos : Nat) : MediaPlayer :=
  { run (envAll len rate) [.openFiles true (.file "a.mp3")] NewMediaPlayer with
    streamer := some ⟨0, "a.mp3", len, pos⟩ }

/-- The file opens and its decoder returns a stream. -/
def Decodes (env : Env) (file : String) : Prop :=
  env.osOpen file = true ∧ ∃ len format, decodeFile env file = some (some (len, format))

/-- The identity of the open stream, if any. -/
def openId (p : MediaPlayer) : Option Nat := p.streamer.map (fun s => s.id)

/-- Stream bookkeeping: every decoder object created so far, other than the
one currently held, has received exactly one `Close()`; the one held and
the ones not yet created have received none. -/
def Tidy (p : MediaPlayer) : Prop :=
  (∀ i, openId p = some i → i < p.nextId) ∧
  ∀ i, p.closed.count i = if i < p.nextId ∧ openId p ≠ some i then 1 else 0

/-- A player with `a.mp3` and `b.wav` in the playlist, cursor on the first,
nothing loaded. -/
def idlePlayer : MediaPlayer :=
  run envNone [.openFiles true (.file "a.mp3"), .openFiles true (.file "b.wav")] NewMediaPlayer

/-- A gateway on which every file opens, MP3 data decodes to 2304 samples at
44100 Hz and WAV data to 100 samples at 48000 Hz. -/
def envAB : Env :=
  { osOpen := fun _ => true
    mp3Decode := fun _ => some (2304, ⟨44100, 2, 2⟩)
    wavDecode := fun _ => some (100, ⟨48000, 1, 2⟩) }

/-- A player with `a.mp3`, `b.wav` and `notes.txt` in the playlist, cursor on
the first, nothing loaded. -/
def threeFiles : MediaPlayer :=
  run envNone [.openFiles true (.file "a.mp3"), .openFiles true (.file "b.wav"),
    .openFiles true (.file "notes.txt")] NewMediaPlayer

/-- Two decimal digits, tens first. -/
def twoDigits (v : Nat) : String := String.mk [Char.ofNat (48 + v / 10), Char.ofNat (48 + v % 10)]

/-! ## Lemmas on the float64 model -/

theorem log2Fuel_spec : ∀ (fuel n : Nat), n ≤ fuel → 0 < n →
    2 ^ log2Fuel fuel n ≤ n ∧ n < 2 ^ (log2Fuel fuel n + 1) := by
  intro fuel
  induction fuel with
  | zero => intro n h h0; omega
  | succ f ih =>
    intro n h h0
    unfold log2Fuel
    split
    · have := ih (n / 2) (by omega) (by omega)
      rw [pow_succ, pow_succ]
      omega
    · simp; omega

theorem ilog2_spec (n : Nat) (h : 0 < n) : 2 ^ ilog2 n ≤ n ∧ n < 2 ^ (ilog2 n + 1) :=
  log2Fuel_spec n n le_rfl h

/-- No number with a 53-bit numerator lies strictly between two neighbouring
multiples of the unit in the last place. -/
theorem no_rep_between (q c e1 e2 : Nat) (hq : 2 ^ 52 ≤ q) (hc : c ≤ 2 ^ 53)
    (h1 : q * 2 ^ e1 < c * 2 ^ e2) (h2 : c * 2 ^ e2 < (q + 1) * 2 ^ e1) : False := by
  rcases le_total e1 e2 with h | h
  · obtain ⟨g, rfl⟩ := Nat.exists_eq_add_of_le h
    have hP : 0 < 2 ^ e1 := by positivity
    rw [pow_add] at h1 h2
    have a1 : q * 2 ^ e1 < (c * 2 ^ g) * 2 ^ e1 := by nlinarith
    have a2 : (c * 2 ^ g) * 2 ^ e1 < (q + 1) * 2 ^ e1 := by nlinarith
    have b1 := Nat.lt_of_mul_lt_mul_right a1
    have b2 := Nat.lt_of_mul_lt_mul_right a2
    omega
  · obtain ⟨g, rfl⟩ := Nat.exists_eq_add_of_le h
    have hP : 0 < 2 ^ e2 := by positivity
    rw [pow_add] at h1 h2
    have a1 : (q * 2 ^ g) * 2 ^ e2 < c * 2 ^ e2 := by nlinarith
    have a2 : c * 2 ^ e2 < ((q + 1) * 2 ^ g) * 2 ^ e2 := by nlinarith
    have b1 := Nat.lt_of_mul_lt_mul_right a1
    have b2 := Nat.lt_of_mul_lt_mul_right a2
    rcases Nat.eq_zero_or_pos g with hg | hg
    · subst hg; simp at b1 b2; omega
    · have : 2 ≤ 2 ^ g := by
        calc 2 = 2 ^ 1 := by norm_num
          _ ≤ 2 ^ g := Nat.pow_le_pow_right (by norm_num) hg
      have : 2 ^ 52 * 2 ≤ q * 2 ^ g := Nat.mul_le_mul hq this
      omega

/-- The anatomy of a rounded quotient: quotient `q` with at least 53 bits,
remainder `r`, and the significand `q'` chosen between `q` and `q + 1`. -/
theorem f64round_spec (n d : Nat) (hn : 0 < n) (hd : 0 < d) :
    ∃ q r t e q', (q' = q ∨ (q' = q + 1 ∧ d * 2 ^ t ≤ 2 * r)) ∧
      (q' = q + 1 ∨ 2 * r ≤ d * 2 ^ t) ∧ 2 ^ 52 ≤ q ∧
      n * 2 ^ e = q * (d * 2 ^ t) + r ∧ r < d * 2 ^ t ∧
      (f64round n d).num * 2 ^ e = q' * 2 ^ t * 2 ^ (f64round n d).k := by
  obtain ⟨ha1, ha2⟩ := ilog2_spec n hn
  obtain ⟨hb1, hb2⟩ := ilog2_spec d hd
  set a := ilog2 n with ha
  set b := ilog2 d with hb
  set t := (if d * 2 ^ a ≤ n * 2 ^ b then a + 1 else a) with ht
  have hden : 0 < d * 2 ^ t := by positivity
  refine ⟨(n * 2 ^ (b + 53)) / (d * 2 ^ t), (n * 2 ^ (b + 53)) % (d * 2 ^ t), t, b + 53,
    (f64sig n d).1, ?_, ?_, ?_, ?_, ?_, ?_⟩
  · simp only [f64sig, ← ha, ← hb, ← ht]
    split
    · rename_i h
      right
      refine ⟨rfl, ?_⟩
      rcases h with h | h <;> omega
    · left; rfl
  · simp only [f64sig, ← ha, ← hb, ← ht]
    split
    · left; rfl
    · rename_i h
      right
      push_neg at h
      exact h.1
  · rw [Nat.le_div_iff_mul_le hden]
    by_cases hc : d * 2 ^ a ≤ n * 2 ^ b
    · simp only [ht, if_pos hc]
      calc 2 ^ 52 * (d * 2 ^ (a + 1)) = (d * 2 ^ a) * 2 ^ 53 := by ring
        _ ≤ (n * 2 ^ b) * 2 ^ 53 := Nat.mul_le_mul_right _ hc
        _ = n * 2 ^ (b + 53) := by ring
    · simp only [ht, if_neg hc]
      have h1 : d * 2 ^ a ≤ 2 ^ (b + 1) * n := by
        calc d * 2 ^ a ≤ 2 ^ (b + 1) * 2 ^ a := Nat.mul_le_mul_right _ hb2.le
          _ ≤ 2 ^ (b + 1) * n := Nat.mul_le_mul_left _ ha1
      calc 2 ^ 52 * (d * 2 ^ a) ≤ 2 ^ 52 * (2 ^ (b + 1) * n) := Nat.mul_le_mul_left _ h1
        _ = n * 2 ^ (b + 53) := by ring
  · rw [Nat.mul_comm _ (d * 2 ^ t)]
    exact (Nat.div_add_mod _ _).symm
  · exact Nat.mod_lt _ hden
  · have hfs : (f64sig n d).2 = t := by simp only [f64sig, ← ha, ← hb, ← ht]
    simp only [f64round, if_neg (Nat.pos_iff_ne_zero.mp hn), hfs, ← hb]
    split
    · rename_i h
      obtain ⟨g, hg⟩ := Nat.exists_eq_add_of_le h
      simp only [hg, Nat.add_sub_cancel_left, pow_zero, mul_one, pow_add]
      ring
    · rename_i h
      push_neg at h
      obtain ⟨g, hg⟩ := Nat.exists_eq_add_of_le h.le
      simp only [hg, Nat.add_sub_cancel_left]
      rw [← hg, hg, pow_add]
      ring

theorem f64round_le (n d c i j : Nat) (hd : 0 < d) (hc : c ≤ 2 ^ 53)
    (h : n * 2 ^ j ≤ c * 2 ^ i * d) :
    (f64round n d).num * 2 ^ j ≤ c * 2 ^ i * 2 ^ (f64round n d).k := by
  rcases Nat.eq_zero_or_pos n with hn | hn
  · subst hn; simp [f64round]
  obtain ⟨q, r, t, e, q', hq', -, hq, hspec, hr, hval⟩ := f64round_spec n d hn hd
  have h3 : (q * 2 ^ (t + j)) * d + r * 2 ^ j ≤ (c * 2 ^ (e + i)) * d := by
    calc (q * 2 ^ (t + j)) * d + r * 2 ^ j = (q * (d * 2 ^ t) + r) * 2 ^ j := by ring
      _ = (n * 2 ^ j) * 2 ^ e := by rw [← hspec]; ring
      _ ≤ (c * 2 ^ i * d) * 2 ^ e := Nat.mul_le_mul_right _ h
      _ = (c * 2 ^ (e + i)) * d := by ring
  have key : q' * 2 ^ (t + j) ≤ c * 2 ^ (e + i) := by
    rcases hq' with rfl | ⟨rfl, h2⟩
    · exact Nat.le_of_mul_le_mul_right (by omega) hd
    · have hrpos : 0 < r * 2 ^ j := by
        have : 0 < d * 2 ^ t := by positivity
        have : 0 < r := by omega
        positivity
      have hlt : q * 2 ^ (t + j) < c * 2 ^ (e + i) :=
        Nat.lt_of_mul_lt_mul_right (a := d) (by omega)
      by_contra hcon
      push_neg at hcon
      exact no_rep_between q c (t + j) (e + i) hq hc hlt hcon
  have hE : 0 < 2 ^ e := by positivity
  apply Nat.le_of_mul_le_mul_right _ hE
  calc (f64round n d).num * 2 ^ j * 2 ^ e = ((f64round n d).num * 2 ^ e) * 2 ^ j := by ring
    _ = (q' * 2 ^ (t + j)) * 2 ^ (f64round n d).k := by rw [hval]; ring
    _ ≤ (c * 2 ^ (e + i)) * 2 ^ (f64round n d).k := Nat.mul_le_mul_right _ key
    _ = c * 2 ^ i * 2 ^ (f64round n d).k * 2 ^ e := by ring

theorem le_f64round (n d c i j : Nat) (hd : 0 < d) (hc : c ≤ 2 ^ 53)
    (h : c * 2 ^ i * d ≤ n * 2 ^ j) :
    c * 2 ^ i * 2 ^ (f64round n d).k ≤ (f64round n d).num * 2 ^ j := by
  rcases Nat.eq_zero_or_pos n with hn | hn
  · subst hn
    have : c = 0 := by
      rcases Nat.eq_zero_or_pos c with h0 | h0
      · exact h0
      · have : 0 < c * 2 ^ i * d := by positivity
        omega
    simp [this]
  obtain ⟨q, r, t, e, q', hq', -, hq, hspec, hr, hval⟩ := f64round_spec n d hn hd
  have h3 : (c * 2 ^ (e + i)) * d < ((q + 1) * 2 ^ (t + j)) * d := by
    have hj : 0 < 2 ^ j := by positivity
    calc (c * 2 ^ (e + i)) * d = (c * 2 ^ i * d) * 2 ^ e := by ring
      _ ≤ (n * 2 ^ j) * 2 ^ e := Nat.mul_le_mul_right _ h
      _ = (q * (d * 2 ^ t) + r) * 2 ^ j := by rw [← hspec]; ring
      _ < (q * (d * 2 ^ t) + d * 2 ^ t) * 2 ^ j := Nat.mul_lt_mul_of_pos_right (by omega) hj
      _ = ((q + 1) * 2 ^ (t + j)) * d := by ring
  have h4 : c * 2 ^ (e + i) < (q + 1) * 2 ^ (t + j) := Nat.lt_of_mul_lt_mul_right h3
  have h5 : c * 2 ^ (e + i) ≤ q * 2 ^ (t + j) := by
    by_contra hcon
    push_neg at hcon
    exact no_rep_between q c (t + j) (e + i) hq hc hcon h4
  have key : c * 2 ^ (e + i) ≤ q' * 2 ^ (t + j) := by
    rcases hq' with rfl | ⟨rfl, -⟩
    · exact h5
    · exact le_trans h5 (Nat.mul_le_mul_right _ (by omega))
  have hE : 0 < 2 ^ e := by positivity
  apply Nat.le_of_mul_le_mul_right _ hE
  calc c * 2 ^ i * 2 ^ (f64round n d).k * 2 ^ e
      = (c * 2 ^ (e + i)) * 2 ^ (f64round n d).k := by ring
    _ ≤ (q' * 2 ^ (t + j)) * 2 ^ (f64round n d).k := Nat.mul_le_mul_right _ key
    _ = ((f64round n d).num * 2 ^ e) * 2 ^ j := by rw [hval]; ring
    _ = (f64round n d).num * 2 ^ j * 2 ^ e := by ring

theorem f64round_lt (n d c j : Nat) (hd : 0 < d) (hc0 : 0 < c)
    (h : n * 2 ^ j * 2 ^ 53 ≤ c * d * (2 ^ 53 - 1)) :
    (f64round n d).num * 2 ^ j < c * 2 ^ (f64round n d).k := by
  rcases Nat.eq_zero_or_pos n with hn | hn
  · subst hn; simp [f64round]; exact hc0
  obtain ⟨q, r, t, e, q', hq', -, hq, hspec, hr, hval⟩ := f64round_spec n d hn hd
  have hY : 0 < 2 ^ (t + j) * d := by positivity
  have h3 : (q * (2 ^ (t + j) * d) + r * 2 ^ j) * 2 ^ 53 ≤ (c * 2 ^ e) * d * (2 ^ 53 - 1) := by
    calc (q * (2 ^ (t + j) * d) + r * 2 ^ j) * 2 ^ 53
        = (q * (d * 2 ^ t) + r) * 2 ^ j * 2 ^ 53 := by ring
      _ = (n * 2 ^ j * 2 ^ 53) * 2 ^ e := by rw [← hspec]; ring
      _ ≤ (c * d * (2 ^ 53 - 1)) * 2 ^ e := Nat.mul_le_mul_right _ h
      _ = (c * 2 ^ e) * d * (2 ^ 53 - 1) := by ring
  have hW : 2 ^ 52 * (2 ^ (t + j) * d) ≤ q * (2 ^ (t + j) * d) := Nat.mul_le_mul_right _ hq
  have key : q' * 2 ^ (t + j) < c * 2 ^ e := by
    by_contra hcon
    push_neg at hcon
    have h6 : (c * 2 ^ e) * d ≤ q' * (2 ^ (t + j) * d) := by
      calc (c * 2 ^ e) * d ≤ (q' * 2 ^ (t + j)) * d := Nat.mul_le_mul_right _ hcon
        _ = q' * (2 ^ (t + j) * d) := by ring
    have h7 : (c * 2 ^ e) * d * (2 ^ 53 - 1) ≤ q' * (2 ^ (t + j) * d) * (2 ^ 53 - 1) :=
      Nat.mul_le_mul_right _ h6
    rcases hq' with rfl | ⟨rfl, h2⟩
    · generalize q' * (2 ^ (t + j) * d) = W at *
      generalize 2 ^ (t + j) * d = Y at *
      generalize r * 2 ^ j = Z at *
      omega
    · have h8 : 2 ^ (t + j) * d ≤ 2 * (r * 2 ^ j) := by
        calc 2 ^ (t + j) * d = (d * 2 ^ t) * 2 ^ j := by ring
          _ ≤ (2 * r) * 2 ^ j := Nat.mul_le_mul_right _ h2
          _ = 2 * (r * 2 ^ j) := by ring
      have h9 : (q + 1) * (2 ^ (t + j) * d) = q * (2 ^ (t + j) * d) + 2 ^ (t + j) * d := by ring
      rw [h9] at h7
      generalize q * (2 ^ (t + j) * d) = W at *
      generalize 2 ^ (t + j) * d = Y at *
      generalize r * 2 ^ j = Z at *
      generalize (c * 2 ^ e) * d = CE at *
      omega
  have hE : 0 < 2 ^ e := by positivity
  apply Nat.lt_of_mul_lt_mul_right (a := 2 ^ e)
  calc (f64round n d).num * 2 ^ j * 2 ^ e = ((f64round n d).num * 2 ^ e) * 2 ^ j := by ring
    _ = (q' * 2 ^ (t + j)) * 2 ^ (f64round n d).k := by rw [hval]; ring
    _ < (c * 2 ^ e) * 2 ^ (f64round n d).k := Nat.mul_lt_mul_of_pos_right key (by positivity)
    _ = c * 2 ^ (f64round n d).k * 2 ^ e := by ring

/-- The model rounds correctly. -/
theorem f64round_rounds (n d : Nat) (hd : 0 < d) :
    Rounds ((n : ℚ) / d) (f64round n d).val := by
  have hdq : (0 : ℚ) < d := by exact_mod_cast hd
  have hk : (0 : ℚ) < 2 ^ (f64round n d).k := by positivity
  refine ⟨?_, ?_, ?_⟩
  · rintro t ⟨c, i, j, hc, rfl⟩ h
    have hj : (0 : ℚ) < 2 ^ j := by positivity
    rw [div_le_div_iff hdq hj] at h
    have h1 : n * 2 ^ j ≤ c * 2 ^ i * d := by exact_mod_cast h
    have h2 := f64round_le n d c i j hd hc h1
    unfold F64.val
    rw [div_le_div_iff hk hj]
    exact_mod_cast h2
  · rintro t ⟨c, i, j, hc, rfl⟩ h
    have hj : (0 : ℚ) < 2 ^ j := by positivity
    rw [div_le_div_iff hj hdq] at h
    have h1 : c * 2 ^ i * d ≤ n * 2 ^ j := by exact_mod_cast h
    have h2 := le_f64round n d c i j hd hc h1
    unfold F64.val
    rw [div_le_div_iff hj hk]
    exact_mod_cast h2
  · intro c j hc0 h
    have hj : (0 : ℚ) < 2 ^ j := by positivity
    have h1 : n * 2 ^ j * 2 ^ 53 ≤ c * d * (2 ^ 53 - 1) := by
      have h' : (n : ℚ) * 2 ^ j * 2 ^ 53 ≤ c * d * (2 ^ 53 - 1) := by
        rw [div_le_iff hdq] at h
        have e1 : ((c : ℚ) / 2 ^ j) * (1 - 1 / 2 ^ 53) * d
            = (c * d * (2 ^ 53 - 1)) / (2 ^ j * 2 ^ 53) := by
          field_simp
          ring
        rw [e1, le_div_iff (by positivity)] at h
        linarith
      have e2 : ((2 : ℚ) ^ 53 - 1) = ((2 ^ 53 - 1 : Nat) : ℚ) := by norm_num
      rw [e2] at h'
      exact_mod_cast h'
    have h2 := f64round_lt n d c j hd hc0 h1
    unfold F64.val
    rw [div_lt_div_iff hk hj]
    exact_mod_cast h2

theorem mul_rounds (x y : F64) : Rounds (x.val * y.val) (F64.mul x y).val := by
  have h := f64round_rounds (x.num * y.num) (2 ^ (x.k + y.k)) (by positivity)
  have e : ((x.num * y.num : Nat) : ℚ) / ((2 ^ (x.k + y.k) : Nat) : ℚ) = x.val * y.val := by
    unfold F64.val
    push_cast
    rw [pow_add]
    field_simp
  rw [e] at h
  exact h

theorem div_rounds (x y : F64) (hy : 0 < y.num) : Rounds (x.val / y.val) (F64.div x y).val := by
  have h := f64round_rounds (x.num * 2 ^ y.k) (y.num * 2 ^ x.k) (by positivity)
  have hyq : (y.num : ℚ) ≠ 0 := by
    have : (0 : ℚ) < y.num := by exact_mod_cast hy
    exact ne_of_gt this
  have e : ((x.num * 2 ^ y.k : Nat) : ℚ) / ((y.num * 2 ^ x.k : Nat) : ℚ) = x.val / y.val := by
    unfold F64.val
    push_cast
    field_simp
    left
    ring
  rw [e] at h
  exact h

theorem add_rounds (x y : F64) : Rounds (x.val + y.val) (F64.add x y).val := by
  have h := f64round_rounds (x.num * 2 ^ y.k + y.num * 2 ^ x.k) (2 ^ (x.k + y.k)) (by positivity)
  have e : ((x.num * 2 ^ y.k + y.num * 2 ^ x.k : Nat) : ℚ) / ((2 ^ (x.k + y.k) : Nat) : ℚ)
      = x.val + y.val := by
    unfold F64.val
    push_cast
    rw [pow_add]
    field_simp
  rw [e] at h
  exact h

theorem ofNat_rounds (n : Nat) : Rounds (n : ℚ) (F64.ofNat n).val := by
  have h := f64round_rounds n 1 (by norm_num)
  simpa using h

/-- A representable number is its own rounding. -/
theorem Rounds.exact {x v : ℚ} (h : Rounds x v) (hx : Rep x) : v = x :=
  le_antisymm (h.1 x hx le_rfl) (h.2.1 x hx le_rfl)

theorem rep_natCast (n : Nat) (h : n ≤ 2 ^ 53) : Rep (n : ℚ) := ⟨n, 0, 0, h, by simp⟩

theorem ofNat_val (n : Nat) (h : n ≤ 2 ^ 53) : (F64.ofNat n).val = n :=
  (ofNat_rounds n).exact (rep_natCast n h)

theorem le_trunc (x : F64) (N : Nat) (h : (N : ℚ) ≤ x.val) : N ≤ x.trunc := by
  have hk : (0 : ℚ) < 2 ^ x.k := by positivity
  unfold F64.val at h
  rw [le_div_iff hk] at h
  have h1 : N * 2 ^ x.k ≤ x.num := by exact_mod_cast h
  unfold F64.trunc
  exact (Nat.le_div_iff_mul_le (by positivity)).mpr h1

theorem trunc_lt (x : F64) (N : Nat) (h : x.val < (N : ℚ)) : x.trunc < N := by
  have hk : (0 : ℚ) < 2 ^ x.k := by positivity
  unfold F64.val at h
  rw [div_lt_iff hk] at h
  have h1 : x.num < N * 2 ^ x.k := by exact_mod_cast h
  unfold F64.trunc
  exact (Nat.div_lt_iff_lt_mul (by positivity)).mpr h1

theorem trunc_le_val (x : F64) : (x.trunc : ℚ) ≤ x.val := by
  have hk : (0 : ℚ) < 2 ^ x.k := by positivity
  unfold F64.val F64.trunc
  rw [le_div_iff hk]
  have : x.num / 2 ^ x.k * 2 ^ x.k ≤ x.num := Nat.div_mul_le_self _ _
  exact_mod_cast this

/-! ## Seeking -/

theorem trunc_eq_of_val (x : F64) (N : Nat) (h : x.val = N) : x.trunc = N := by
  have h1 : N ≤ x.trunc := le_trunc x N (by rw [h])
  have h2 : x.trunc < N + 1 := trunc_lt x (N + 1) (by rw [h]; push_cast; linarith)
  omega

/-- Sandwich of a truncated rounding between the two integers around the
exact value. -/
theorem trunc_rounds_bounds (x : ℚ) (v : F64) (h : Rounds x v.val) (F : Nat)
    (hF : F + 1 ≤ 2 ^ 53) (h1 : (F : ℚ) ≤ x) (h2 : x ≤ (F : ℚ) + 1) :
    F ≤ v.trunc ∧ v.trunc ≤ F + 1 := by
  constructor
  · exact le_trunc v F (h.2.1 _ (rep_natCast F (by omega)) h1)
  · have h3 : v.val ≤ ((F + 1 : Nat) : ℚ) :=
      h.1 _ (rep_natCast (F + 1) hF) (by push_cast; exact h2)
    have h4 := trunc_le_val v
    have h5 : (v.trunc : ℚ) ≤ ((F + 1 : Nat) : ℚ) := le_trans h4 h3
    exact_mod_cast h5

theorem natDiv_le_ratio (a b : Nat) (hb : 0 < b) : ((a / b : Nat) : ℚ) ≤ (a : ℚ) / b := by
  have hbq : (0 : ℚ) < b := by exact_mod_cast hb
  rw [le_div_iff hbq]
  have : a / b * b ≤ a := Nat.div_mul_le_self a b
  exact_mod_cast this

theorem ratio_lt_natDiv_succ (a b : Nat) (hb : 0 < b) : (a : ℚ) / b < ((a / b : Nat) : ℚ) + 1 := by
  have hbq : (0 : ℚ) < b := by exact_mod_cast hb
  rw [div_lt_iff hbq]
  have : a < (a / b + 1) * b := by
    have := Nat.div_add_mod a b
    have := Nat.mod_lt a hb
    nlinarith
  exact_mod_cast this

/-- A float64 below one is at most `1 - 2 ^ (-53)`. -/
theorem below_one_gap (m k : Nat) (hf : m < 2 ^ k) (hm : m < 2 ^ 53) :
    (m : ℚ) / 2 ^ k ≤ 1 - 1 / 2 ^ 53 := by
  have hk : (0 : ℚ) < 2 ^ k := by positivity
  rcases le_or_lt k 53 with h | h
  · have h1 : (m : ℚ) + 1 ≤ 2 ^ k := by exact_mod_cast hf
    have h2 : (2 : ℚ) ^ k ≤ 2 ^ 53 := by
      exact_mod_cast Nat.pow_le_pow_right (by norm_num : 0 < 2) h
    have h3 : (m : ℚ) / 2 ^ k ≤ 1 - 1 / 2 ^ k := by
      rw [div_le_iff hk]
      field_simp
      linarith
    have h4 : (1 : ℚ) / 2 ^ 53 ≤ 1 / 2 ^ k := one_div_le_one_div_of_le hk h2
    linarith
  · have h1 : (2 : ℚ) ^ 54 ≤ 2 ^ k := by
      exact_mod_cast Nat.pow_le_pow_right (by norm_num : 0 < 2) (by omega : 54 ≤ k)
    have h2 : (m : ℚ) < 2 ^ 53 := by exact_mod_cast hm
    rw [div_le_iff hk]
    have h3 : (1 / 2 : ℚ) * 2 ^ k ≤ (1 - 1 / 2 ^ 53) * 2 ^ k :=
      mul_le_mul_of_nonneg_right (by norm_num) hk.le
    have h4 : (2 : ℚ) ^ 54 = 2 * 2 ^ 53 := by norm_num
    linarith

/-- C1, as the code has it: for a fraction `f = num / 2 ^ k` below one the
time slider seeks to `int(float64(L) * f)`, the float64 product truncated
toward zero.  The target is `⌊f * L⌋` or `⌊f * L⌋ + 1`, it is `⌊f * L⌋`
whenever the product `f * L` is exactly representable as a float64, and it
lies in `[0, L - 1]`. -/
theorem C1_slider_seek_truncates (p : MediaPlayer) (s : Stream) (pos : F64)
    (hs : p.streamer = some s) (hL : 1 ≤ s.len) (hL53 : s.len < 2 ^ 53)
    (hf : pos.num < 2 ^ pos.k) (hm : pos.num < 2 ^ 53) :
    ∃ t : Nat, timeSliderOnChanged pos p = some (t : Int) ∧
      s.len * pos.num / 2 ^ pos.k ≤ t ∧ t ≤ s.len * pos.num / 2 ^ pos.k + 1 ∧
      t ≤ s.len - 1 ∧
      (Rep ((s.len : ℚ) * pos.val) → t = s.len * pos.num / 2 ^ pos.k) := by
  refine ⟨(F64.mul (F64.ofNat s.len) pos).trunc, ?_, ?_⟩
  · simp [timeSliderOnChanged, hs]
  have hk : (0 : ℚ) < 2 ^ pos.k := by positivity
  have hkn : 0 < 2 ^ pos.k := by positivity
  have hR := mul_rounds (F64.ofNat s.len) pos
  rw [ofNat_val s.len hL53.le] at hR
  have hx : (s.len : ℚ) * pos.val = ((s.len * pos.num : Nat) : ℚ) / ((2 ^ pos.k : Nat) : ℚ) := by
    unfold F64.val
    push_cast
    ring
  have hFle : s.len * pos.num / 2 ^ pos.k ≤ s.len := by
    apply Nat.div_le_of_le_mul
    rw [Nat.mul_comm (2 ^ pos.k)]
    exact Nat.mul_le_mul_left _ hf.le
  have hb := trunc_rounds_bounds _ _ hR (s.len * pos.num / 2 ^ pos.k) (by omega)
    (by rw [hx]; exact natDiv_le_ratio _ _ hkn)
    (by rw [hx]; exact (ratio_lt_natDiv_succ _ _ hkn).le)
  refine ⟨hb.1, hb.2, ?_, ?_⟩
  · have hgap := below_one_gap pos.num pos.k hf hm
    have hLq : (0 : ℚ) < s.len := by exact_mod_cast hL
    have h3 := hR.2.2 s.len 0 hL (by
      unfold F64.val
      simp only [pow_zero, div_one]
      exact mul_le_mul_of_nonneg_left hgap hLq.le)
    simp only [pow_zero, div_one] at h3
    have := trunc_lt _ _ h3
    omega
  · intro hrep
    have hv := hR.exact hrep
    have h1 := trunc_lt (F64.mul (F64.ofNat s.len) pos) (s.len * pos.num / 2 ^ pos.k + 1) (by
      rw [hv, hx]
      push_cast
      have := ratio_lt_natDiv_succ (s.len * pos.num) (2 ^ pos.k) hkn
      push_cast at this
      exact this)
    omega

set_option maxRecDepth 100000 in
/-- Witness of `C1_slider_seek_truncates`: 100 samples, slider at one half. -/
theorem C1_slider_seek_truncates_witness :
    ∃ t : Nat, timeSliderOnChanged ⟨1, 1⟩ (loadedPlayer 100 44100 0) = some (t : Int) ∧
      100 * 1 / 2 ^ 1 ≤ t ∧ t ≤ 100 * 1 / 2 ^ 1 + 1 ∧ t ≤ 100 - 1 ∧
      (Rep (((100 : Nat) : ℚ) * F64.val ⟨1, 1⟩) → t = 100 * 1 / 2 ^ 1) :=
  C1_slider_seek_truncates (loadedPlayer 100 44100 0) ⟨0, "a.mp3", 100, 0⟩ ⟨1, 1⟩ (by decide)
    (by decide) (by decide) (by decide) (by decide)

set_option maxRecDepth 100000 in
/-- C1 as stated fails: with the slider at 1 on a 10-sample stream the seek
goes to 10, not to the clamped 9; with the slider at one half on a 3-sample
stream it goes to 1 (truncation), not to the rounded 2. -/
theorem C1_counterexample :
    timeSliderOnChanged ⟨1, 0⟩ (loadedPlayer 10 44100 0) = some 10 ∧
    specSeekTarget 10 ⟨1, 0⟩ = 9 ∧
    timeSliderOnChanged ⟨1, 1⟩ (loadedPlayer 3 44100 0) = some 1 ∧
    specSeekTarget 3 ⟨1, 1⟩ = 2 := by
  refine ⟨by decide, by decide, by decide, by decide⟩

theorem wrapInt64_of_range (x : Int) (h1 : -2 ^ 63 ≤ x) (h2 : x < 2 ^ 63) :
    wrapInt64 x = x := by
  unfold wrapInt64
  omega

theorem sampleRateN_five (r : Nat) (hr : 5 * 10 ^ 9 * r < 2 ^ 63) :
    sampleRateN r (5 * timeSecond) = 5 * r := by
  unfold sampleRateN timeSecond
  have hw := wrapInt64_of_range ((5 * ((1000000000 : Nat) : Int)) * (r : Int))
    (by push_cast; omega) (by push_cast; omega)
  rw [hw, Int.tdiv_eq_ediv (by push_cast; omega) (by norm_num)]
  push_cast
  omega

/-- C2, as the code has it: on a stream of length `L ≥ 1`, with
`5 * 10 ^ 9 * r` and `L + 5 * r` inside the 64-bit integers, the Right key
seeks to `min(p + 5r, L - 1)` and the Left key to `max(p - 5r, 0)`; both
targets lie in `[0, L - 1]`. -/
theorem C2_relative_seek_in_range (p : MediaPlayer) (s : Stream)
    (hs : p.streamer = some s) (hL : 1 ≤ s.len) (hp : s.pos ≤ s.len)
    (hr : 1 ≤ p.format.sampleRate) (hr63 : 5 * 10 ^ 9 * p.format.sampleRate < 2 ^ 63)
    (hL63 : s.len + 5 * p.format.sampleRate < 2 ^ 63) :
    keyRight p = some (min ((s.pos : Int) + 5 * p.format.sampleRate) ((s.len : Int) - 1)) ∧
    keyLeft p = some (max ((s.pos : Int) - 5 * p.format.sampleRate) 0) ∧
    (0 ≤ min ((s.pos : Int) + 5 * p.format.sampleRate) ((s.len : Int) - 1)) ∧
    (max ((s.pos : Int) - 5 * p.format.sampleRate) 0 ≤ (s.len : Int) - 1) := by
  have hN := sampleRateN_five p.format.sampleRate hr63
  refine ⟨?_, ?_, ?_, ?_⟩
  · have w1 := wrapInt64_of_range ((s.pos : Int) + 5 * (p.format.sampleRate : Int))
      (by omega) (by omega)
    have w2 := wrapInt64_of_range ((s.len : Int) - 1) (by omega) (by omega)
    unfold keyRight
    rw [hs]
    dsimp only
    rw [hN, w1, w2]
    refine congrArg some ?_
    split <;> omega
  · have w1 := wrapInt64_of_range ((s.pos : Int) - 5 * (p.format.sampleRate : Int))
      (by omega) (by omega)
    unfold keyLeft
    rw [hs]
    dsimp only
    rw [hN, w1]
    refine congrArg some ?_
    split <;> omega
  · omega
  · omega

set_option maxRecDepth 100000 in
/-- Witness of `C2_relative_seek_in_range`: 100 samples at 10 Hz, position 70. -/
theorem C2_relative_seek_in_range_witness :
    keyRight (loadedPlayer 100 10 70) = some (min ((70 : Int) + 5 * (10 : Nat)) ((100 : Nat) - 1)) ∧
    keyLeft (loadedPlayer 100 10 70) = some (max (((70 : Nat) : Int) - 5 * (10 : Nat)) 0) ∧
    (0 ≤ min ((((70 : Nat) : Int)) + 5 * (10 : Nat)) (((100 : Nat) : Int) - 1)) ∧
    (max ((((70 : Nat) : Int)) - 5 * (10 : Nat)) 0 ≤ ((100 : Nat) : Int) - 1) :=
  C2_relative_seek_in_range (loadedPlayer 100 10 70) ⟨0, "a.mp3", 100, 70⟩ (by decide)
    (by decide) (by decide) (by decide) (by decide) (by decide)

set_option maxRecDepth 100000 in
/-- C2 as stated fails.  At `L = 0` the Right key seeks to `-1`, below the
lower bound `0` of the claim.  At `r = 2000000000` the product
`5 * 10 ^ 9 * r` wraps in `SampleRate.N`: with `L = 100`, `p = 70` the Right
key seeks to `-8446744003` and the Left key to `8446744143`.  At
`p = L = 2 ^ 63 - 1` the sum `p + 5r` wraps and the Right key seeks to
`-9223372036854775804`. -/
theorem C2_counterexample :
    keyRight (loadedPlayer 0 44100 0) = some (-1) ∧ ¬ ((0 : Int) ≤ -1) ∧
    keyRight (loadedPlayer 100 2000000000 70) = some (-8446744003) ∧
    keyLeft (loadedPlayer 100 2000000000 70) = some 8446744143 ∧
    keyRight (loadedPlayer 9223372036854775807 1 9223372036854775807)
      = some (-9223372036854775804) := by
  refine ⟨by decide, by decide, by decide, by decide, by decide⟩

/-! ## The controller -/

theorem playTrack_cases (env : Env) (p : MediaPlayer) :
    playTrack env p = p ∨
    (0 ≤ p.current ∧ p.current < p.playlist.length ∧ Decodes env (currentTrack p) ∧
      ∃ len format, playTrack env p =
        { p with
          closed := match p.streamer with
            | some s => s.id :: p.closed
            | none => p.closed
          streamer := some ⟨p.nextId, currentTrack p, len, 0⟩
          format := format
          ctrl := some p.nextId
          volume := some ⟨p.nextId, 2, ⟨false, ⟨0, 0⟩⟩⟩
          resampler := some p.nextId
          isPlaying := true
          nextId := p.nextId + 1
          tasks := p.tasks + 1 }) := by
  unfold playTrack
  by_cases hc : p.current < 0 ∨ p.current ≥ p.playlist.length
  · left; rw [if_pos hc]
  rw [if_neg hc]
  by_cases ho : env.osOpen (currentTrack p) = false
  · left; simp only [ho, if_true]
  simp only [ho, if_false]
  rcases hd : decodeFile env (currentTrack p) with _ | _ | ⟨len, format⟩
  · left; rfl
  · left; rfl
  · right
    refine ⟨by omega, by omega, ⟨by simpa using ho, len, format, hd⟩, len, format, rfl⟩

theorem playTrack_success (env : Env) (p : MediaPlayer)
    (h0 : 0 ≤ p.current) (h1 : p.current < p.playlist.length)
    (hd : Decodes env (currentTrack p)) :
    ∃ len format, decodeFile env (currentTrack p) = some (some (len, format)) ∧
      playTrack env p =
        { p with
          closed := match p.streamer with
            | some s => s.id :: p.closed
            | none => p.closed
          streamer := some ⟨p.nextId, currentTrack p, len, 0⟩
          format := format
          ctrl := some p.nextId
          volume := some ⟨p.nextId, 2, ⟨false, ⟨0, 0⟩⟩⟩
          resampler := some p.nextId
          isPlaying := true
          nextId := p.nextId + 1
          tasks := p.tasks + 1 } := by
  obtain ⟨ho, len, format, hdec⟩ := hd
  refine ⟨len, format, hdec, ?_⟩
  unfold playTrack
  rw [if_neg (by omega)]
  simp only [ho, hdec]
  rfl

theorem playTrack_playlist (env : Env) (p : MediaPlayer) :
    (playTrack env p).playlist = p.playlist := by
  rcases playTrack_cases env p with h | ⟨-, -, -, len, format, h⟩ <;> rw [h]

theorem playTrack_current (env : Env) (p : MediaPlayer) :
    (playTrack env p).current = p.current := by
  rcases playTrack_cases env p with h | ⟨-, -, -, len, format, h⟩ <;> rw [h]

theorem stopTrack_playlist (p : MediaPlayer) : (stopTrack p).playlist = p.playlist := by
  unfold stopTrack; split <;> rfl

theorem stopTrack_current (p : MediaPlayer) : (stopTrack p).current = p.current := by
  unfold stopTrack; split <;> rfl

theorem playlistSelect_playlist (env : Env) (fires : Bool) (id : Int) (p : MediaPlayer) :
    (playlistSelect env fires id p).playlist = p.playlist := by
  unfold playlistSelect playlistOnSelected
  split
  · rw [playTrack_playlist]
  · rfl

theorem playlistSelect_current (env : Env) (fires : Bool) (id : Int) (p : MediaPlayer)
    (h : p.current = id) : (playlistSelect env fires id p).current = id := by
  unfold playlistSelect playlistOnSelected
  split
  · rw [playTrack_current]
  · exact h

theorem nextTrack_playlist (env : Env) (fires : Bool) (p : MediaPlayer) :
    (nextTrack env fires p).playlist = p.playlist := by
  unfold nextTrack
  split
  · rfl
  · simp only [playTrack_playlist, playlistSelect_playlist, stopTrack_playlist]

theorem prevTrack_playlist (env : Env) (fires : Bool) (p : MediaPlayer) :
    (prevTrack env fires p).playlist = p.playlist := by
  unfold prevTrack
  split
  · rfl
  · simp only [playTrack_playlist, playlistSelect_playlist, stopTrack_playlist]

theorem nextTrack_current (env : Env) (fires : Bool) (p : MediaPlayer)
    (h : p.playlist.length ≠ 0) :
    (nextTrack env fires p).current = Int.tmod (p.current + 1) p.playlist.length := by
  unfold nextTrack
  rw [if_neg h]
  simp only [playTrack_current]
  refine (playlistSelect_current env fires _ _ rfl).trans ?_
  simp only [stopTrack_current, stopTrack_playlist]

theorem prevTrack_current (env : Env) (fires : Bool) (p : MediaPlayer)
    (h : p.playlist.length ≠ 0) :
    (prevTrack env fires p).current =
      if p.current - 1 < 0 then (p.playlist.length : Int) - 1 else p.current - 1 := by
  unfold prevTrack
  rw [if_neg h]
  simp only [playTrack_current]
  refine (playlistSelect_current env fires _ _ rfl).trans ?_
  simp only [stopTrack_current, stopTrack_playlist]

theorem togglePlay_playlist (env : Env) (p : MediaPlayer) :
    (togglePlay env p).playlist = p.playlist := by
  unfold togglePlay pauseTrack
  split
  · rfl
  · split
    · rfl
    · exact playTrack_playlist env p

theorem togglePlay_current (env : Env) (p : MediaPlayer) :
    (togglePlay env p).current = p.current := by
  unfold togglePlay pauseTrack
  split
  · rfl
  · split
    · rfl
    · exact playTrack_current env p

/-- With a valid cursor and the playing flag set, `togglePlay` only clears the
flag. -/
theorem togglePlay_playing (env : Env) (p : MediaPlayer) (h0 : 0 ≤ p.current)
    (h1 : p.current < p.playlist.length) (h2 : p.isPlaying = true) :
    togglePlay env p = { p with isPlaying := false } := by
  unfold togglePlay pauseTrack
  rw [if_neg (by omega), if_pos h2]

/-- With a valid cursor and the playing flag clear, `togglePlay` is
`playTrack`. -/
theorem togglePlay_paused (env : Env) (p : MediaPlayer) (h0 : 0 ≤ p.current)
    (h1 : p.current < p.playlist.length) (h2 : p.isPlaying = false) :
    togglePlay env p = playTrack env p := by
  unfold togglePlay
  rw [if_neg (by omega)]
  simp [h2]

/-- C3 fails on the code.  A Session on `a.mp3` (decoder object 0) is paused
at sample 50; `togglePlay` then decodes the file again: decoder object 0
receives a `Close()` and the handle held afterwards is decoder object 1 at
sample 0, where the claim has the same handle, neither closed nor replaced.
With no Session and a valid cursor `togglePlay` loads the track, where the
claim has a no-op. -/
theorem C3_resume_redecodes :
    (pauseTrack (loadedPlayer 100 44100 50)).streamer = some ⟨0, "a.mp3", 100, 50⟩ ∧
    (pauseTrack (loadedPlayer 100 44100 50)).isPlaying = false ∧
    (pauseTrack (loadedPlayer 100 44100 50)).closed = [] ∧
    (togglePlay (envAll 100 44100) (pauseTrack (loadedPlayer 100 44100 50))).streamer
      = some ⟨1, "a.mp3", 100, 0⟩ ∧
    (togglePlay (envAll 100 44100) (pauseTrack (loadedPlayer 100 44100 50))).closed = [0] ∧
    idlePlayer.streamer = none ∧
    (togglePlay (envAll 100 44100) idlePlayer).streamer = some ⟨0, "a.mp3", 100, 0⟩ := by
  refine ⟨by decide, by decide, by decide, by decide, by decide, by decide, by decide⟩

/-- C4: when the load of the track at the cursor fails (the file cannot be
opened, its extension is neither `.mp3` nor `.wav`, or the decoder returns an
error), `playTrack` returns the state it was given: same stream handle,
nothing closed, same flag, format, playlist and cursor, no goroutine
started. -/
theorem C4_playTrack_failure_keeps_state (env : Env) (p : MediaPlayer)
    (h0 : 0 ≤ p.current) (h1 : p.current < p.playlist.length)
    (hfail : env.osOpen (currentTrack p) = false ∨
      (stringsToLower (filepathExt (currentTrack p)) ≠ ".mp3" ∧
        stringsToLower (filepathExt (currentTrack p)) ≠ ".wav") ∨
      (stringsToLower (filepathExt (currentTrack p)) = ".mp3" ∧
        env.mp3Decode (currentTrack p) = none) ∨
      (stringsToLower (filepathExt (currentTrack p)) = ".wav" ∧
        env.wavDecode (currentTrack p) = none)) :
    playTrack env p = p ∧ (playTrack env p).streamer = p.streamer ∧
    (playTrack env p).closed = p.closed ∧ (playTrack env p).tasks = p.tasks := by
  have key : playTrack env p = p := by
    unfold playTrack
    rw [if_neg (by omega)]
    by_cases ho : env.osOpen (currentTrack p) = false
    · simp only [ho, if_true]
    rw [if_neg ho]
    have hd : decodeFile env (currentTrack p) = none ∨
        decodeFile env (currentTrack p) = some none := by
      unfold decodeFile
      rcases hfail with h | ⟨h, h'⟩ | ⟨h, h'⟩ | ⟨h, h'⟩
      · exact absurd h ho
      · left; simp [h, h']
      · right; simp [h, h']
      · right
        have hne : stringsToLower (filepathExt (currentTrack p)) ≠ ".mp3" := by
          rw [h]; decide
        simp [h, h']
    rcases hd with hd | hd <;> rw [hd]
  rw [key]
  exact ⟨rfl, rfl, rfl, rfl⟩

/-- Witness of `C4_playTrack_failure_keeps_state`: a playing Session, cursor
on `a.mp3`, and a gateway on which no file can be opened. -/
theorem C4_playTrack_failure_keeps_state_witness :
    playTrack envNone (loadedPlayer 100 44100 0) = loadedPlayer 100 44100 0 ∧
    (playTrack envNone (loadedPlayer 100 44100 0)).streamer = (loadedPlayer 100 44100 0).streamer ∧
    (playTrack envNone (loadedPlayer 100 44100 0)).closed = (loadedPlayer 100 44100 0).closed ∧
    (playTrack envNone (loadedPlayer 100 44100 0)).tasks = (loadedPlayer 100 44100 0).tasks :=
  C4_playTrack_failure_keeps_state envNone (loadedPlayer 100 44100 0) (by decide) (by decide)
    (Or.inl (by decide))

theorem tmod_succ_cursor (c : Int) (n : Nat) (h0 : 0 ≤ c) (h1 : c < n) :
    Int.tmod (c + 1) n = if c + 1 = n then 0 else c + 1 := by
  split
  · rename_i h
    rw [h, Int.tmod_eq_emod (by omega) (by omega), Int.emod_self]
  · exact Int.tmod_eq_of_lt (by omega) (by omega)

theorem currentTrack_mem (p : MediaPlayer) (h0 : 0 ≤ p.current)
    (h1 : p.current < p.playlist.length) : currentTrack p ∈ p.playlist := by
  unfold currentTrack
  have hn : p.current.toNat < p.playlist.length := by omega
  rw [List.getD_eq_getElem _ _ hn]
  exact List.getElem_mem hn

/-! ### Stream bookkeeping -/

theorem tidy_congr (p q : MediaPlayer) (h1 : q.streamer = p.streamer)
    (h2 : q.nextId = p.nextId) (h3 : q.closed = p.closed) (h : Tidy p) : Tidy q := by
  unfold Tidy openId at *
  rw [h1, h2, h3]
  exact h

theorem tidy_init : Tidy NewMediaPlayer := by
  refine ⟨?_, ?_⟩
  · intro i h
    simp [openId, NewMediaPlayer] at h
  · intro i
    simp [openId, NewMediaPlayer]

theorem tidy_playTrack (env : Env) (p : MediaPlayer) (h : Tidy p) : Tidy (playTrack env p) := by
  rcases playTrack_cases env p with e | ⟨-, -, -, len, format, e⟩
  · rw [e]; exact h
  rw [e]
  obtain ⟨ha, hb⟩ := h
  unfold Tidy openId at *
  rcases hs : p.streamer with _ | s
  · rw [hs] at ha hb
    simp only [Option.map_none', Option.map_some', Option.some.injEq] at ha hb ⊢
    refine ⟨by intro i hi; omega, ?_⟩
    intro i
    rw [hb i]
    by_cases h2 : i < p.nextId
    · have h3 : i < p.nextId + 1 ∧ ¬ p.nextId = i := ⟨by omega, by omega⟩
      simp [h2, h3]
    · have h3 : ¬ (i < p.nextId + 1 ∧ ¬ p.nextId = i) := by omega
      simp [h2, h3]
  · rw [hs] at ha hb
    simp only [Option.map_some', Option.some.injEq] at ha hb ⊢
    have hlt := ha s.id rfl
    refine ⟨by intro i hi; omega, ?_⟩
    intro i
    rw [List.count_cons, hb i]
    by_cases hi : s.id = i
    · subst hi
      have h3 : s.id < p.nextId + 1 ∧ ¬ p.nextId = s.id := ⟨by omega, by omega⟩
      simp [h3]
    · have hbeq : (s.id == i) = false := by simpa using hi
      simp only [hbeq, Bool.false_eq_true, if_false, Nat.add_zero]
      by_cases h2 : i < p.nextId
      · have h3 : i < p.nextId + 1 ∧ ¬ p.nextId = i := ⟨by omega, by omega⟩
        simp [h2, h3, hi]
      · have h3 : ¬ (i < p.nextId + 1 ∧ ¬ p.nextId = i) := by omega
        simp [h2, h3]

theorem tidy_stopTrack (p : MediaPlayer) (h : Tidy p) : Tidy (stopTrack p) := by
  obtain ⟨ha, hb⟩ := h
  unfold stopTrack
  unfold Tidy openId at *
  rcases hs : p.streamer with _ | s
  · rw [hs] at ha hb
    exact ⟨ha, hb⟩
  · rw [hs] at ha hb
    simp only [Option.map_some', Option.some.injEq, Option.map_none'] at ha hb ⊢
    have hlt := ha s.id rfl
    refine ⟨by intro i hi; simp at hi, ?_⟩
    intro i
    rw [List.count_cons, hb i]
    by_cases hi : s.id = i
    · subst hi
      simp [hlt]
    · have hbeq : (s.id == i) = false := by simpa using hi
      simp [hbeq, hi]

theorem tidy_playlistSelect (env : Env) (fires : Bool) (id : Int) (p : MediaPlayer)
    (h : Tidy p) : Tidy (playlistSelect env fires id p) := by
  unfold playlistSelect playlistOnSelected
  split
  · exact tidy_playTrack env _ (tidy_congr p _ rfl rfl rfl h)
  · exact h

theorem tidy_nextTrack (env : Env) (fires : Bool) (p : MediaPlayer) (h : Tidy p) :
    Tidy (nextTrack env fires p) := by
  unfold nextTrack
  split
  · exact h
  · exact tidy_playTrack env _ (tidy_playlistSelect env fires _ _
      (tidy_congr (stopTrack p) _ rfl rfl rfl (tidy_stopTrack p h)))

theorem tidy_prevTrack (env : Env) (fires : Bool) (p : MediaPlayer) (h : Tidy p) :
    Tidy (prevTrack env fires p) := by
  unfold prevTrack
  split
  · exact h
  · exact tidy_playTrack env _ (tidy_playlistSelect env fires _ _
      (tidy_congr (stopTrack p) _ rfl rfl rfl (tidy_stopTrack p h)))

theorem tidy_step (env : Env) (c : Cmd) (p : MediaPlayer) (h : Tidy p) : Tidy (step env c p) := by
  cases c with
  | openFiles fires ch =>
    unfold step openFiles
    cases ch with
    | failed => exact h
    | cancelled => exact h
    | file path =>
      simp only
      split
      · exact tidy_playlistSelect env fires _ _ (tidy_congr p _ rfl rfl rfl h)
      · exact tidy_congr p _ rfl rfl rfl h
  | clearPlaylist => exact tidy_congr (stopTrack p) _ rfl rfl rfl (tidy_stopTrack p h)
  | playTrack => exact tidy_playTrack env p h
  | togglePlay =>
    unfold step togglePlay pauseTrack
    simp only
    split
    · exact h
    · split
      · exact tidy_congr p _ rfl rfl rfl h
      · exact tidy_playTrack env p h
  | stopTrack => exact tidy_stopTrack p h
  | nextTrack fires => exact tidy_nextTrack env fires p h
  | prevTrack fires => exact tidy_prevTrack env fires p h

/-- In every reachable state each decoder object other than the one held has
been closed exactly once. -/
theorem tidy_reachable (p : MediaPlayer) (h : Reachable p) : Tidy p := by
  induction h with
  | init => exact tidy_init
  | step env c _ ih => exact tidy_step env c _ ih

theorem playTrack_nextId_le (env : Env) (p : MediaPlayer) : p.nextId ≤ (playTrack env p).nextId := by
  rcases playTrack_cases env p with e | ⟨-, -, -, len, format, e⟩ <;> rw [e]
  simp

theorem stopTrack_nextId (p : MediaPlayer) : (stopTrack p).nextId = p.nextId := by
  unfold stopTrack; split <;> rfl

theorem playlistSelect_nextId_le (env : Env) (fires : Bool) (id : Int) (p : MediaPlayer) :
    p.nextId ≤ (playlistSelect env fires id p).nextId := by
  unfold playlistSelect playlistOnSelected
  split
  · exact playTrack_nextId_le env { p with current := id }
  · exact le_rfl

/-- A successful load installs a stream decoded from the track at the cursor,
younger than every decoder object created before it. -/
theorem load_after (env : Env) (r : MediaPlayer) (A : Nat) (hA : A < r.nextId)
    (h0 : 0 ≤ r.current) (h1 : r.current < r.playlist.length)
    (hd : Decodes env (currentTrack r)) :
    ∃ sB, (playTrack env r).streamer = some sB ∧ sB.file = currentTrack r ∧
      decodeFile env sB.file = some (some (sB.len, (playTrack env r).format)) ∧
      A < sB.id ∧ sB.pos = 0 ∧ (playTrack env r).isPlaying = true := by
  obtain ⟨len, format, hdec, e⟩ := playTrack_success env r h0 h1 hd
  rw [e]
  exact ⟨⟨r.nextId, currentTrack r, len, 0⟩, rfl, rfl, hdec, hA, rfl, rfl⟩

theorem tidy_counts (q : MediaPlayer) (hT : Tidy q) (sB : Stream) (hs : q.streamer = some sB)
    (A : Nat) (hA : A < sB.id) : q.closed.count A = 1 ∧ q.closed.count sB.id = 0 := by
  obtain ⟨ha, hb⟩ := hT
  have ho : openId q = some sB.id := by simp [openId, hs]
  have hlt := ha sB.id ho
  constructor
  · rw [hb A, ho]
    rw [if_pos]
    refine ⟨by omega, ?_⟩
    intro h
    have := Option.some.inj h
    omega
  · rw [hb sB.id, ho]
    simp

theorem nextTrack_eq (env : Env) (fires : Bool) (p : MediaPlayer) (h : p.playlist.length ≠ 0) :
    nextTrack env fires p = playTrack env (playlistSelect env fires
      (Int.tmod ((stopTrack p).current + 1) (stopTrack p).playlist.length)
      { stopTrack p with
        current := Int.tmod ((stopTrack p).current + 1) (stopTrack p).playlist.length }) := by
  unfold nextTrack
  rw [if_neg h]

theorem prevTrack_eq (env : Env) (fires : Bool) (p : MediaPlayer) (h : p.playlist.length ≠ 0) :
    prevTrack env fires p = playTrack env (playlistSelect env fires
      (if (stopTrack p).current - 1 < 0 then ((stopTrack p).playlist.length : Int) - 1
        else (stopTrack p).current - 1)
      { stopTrack p with
        current := if (stopTrack p).current - 1 < 0 then ((stopTrack p).playlist.length : Int) - 1
          else (stopTrack p).current - 1 }) := by
  unfold prevTrack
  rw [if_neg h]

/-- Loading the track `B` at the cursor `c`: the stream held afterwards is
decoded from `B` and is younger than every decoder object that existed
before. -/
theorem load_at (env : Env) (c : Int) (r : MediaPlayer) (A : Nat) (B : String)
    (hA : A < r.nextId) (hc : r.current = c) (h0 : 0 ≤ c) (h1 : c < r.playlist.length)
    (hB : r.playlist.getD c.toNat "" = B) (hd : Decodes env B) :
    (playTrack env r).current = c ∧
    ∃ sB, (playTrack env r).streamer = some sB ∧ sB.file = B ∧
      decodeFile env sB.file = some (some (sB.len, (playTrack env r).format)) ∧
      A < sB.id ∧ sB.pos = 0 ∧ (playTrack env r).isPlaying = true := by
  have htr : currentTrack r = B := by
    unfold currentTrack
    rw [hc, hB]
  refine ⟨by rw [playTrack_current, hc], ?_⟩
  rw [← htr]
  exact load_after env r A hA (by rw [hc]; exact h0) (by rw [hc]; exact h1) (by rw [htr]; exact hd)

/-- Selecting a row and then loading it. -/
theorem select_then_load (env : Env) (fires : Bool) (c : Int) (r : MediaPlayer) (A : Nat)
    (B : String) (hA : A < r.nextId) (hc : r.current = c) (h0 : 0 ≤ c)
    (h1 : c < r.playlist.length) (hB : r.playlist.getD c.toNat "" = B) (hd : Decodes env B) :
    (playTrack env (playlistSelect env fires c r)).current = c ∧
    ∃ sB, (playTrack env (playlistSelect env fires c r)).streamer = some sB ∧ sB.file = B ∧
      decodeFile env sB.file
        = some (some (sB.len, (playTrack env (playlistSelect env fires c r)).format)) ∧
      A < sB.id ∧ sB.pos = 0 ∧
      (playTrack env (playlistSelect env fires c r)).isPlaying = true := by
  have hcur := playlistSelect_current env fires c r hc
  have hpl := playlistSelect_playlist env fires c r
  have hid := playlistSelect_nextId_le env fires c r
  exact load_at env c _ A B (by omega) hcur h0 (by rw [hpl]; exact h1) (by rw [hpl]; exact hB) hd

/-- C5: a successful load of the track at the cursor installs stream `A`
(decoder object `p.nextId`, reading that track).  A second successful load
of the track `B` at row `j` (by selecting row `j`, by `playTrack` again
when `j` is the cursor, by `nextTrack` when `j` is the next row, or by
`prevTrack` when `j` is the previous row) leaves the cursor on `j` and one
stream held: it reads `B`, has the length and format the decoder returned
for `B`, is younger than `A` and has never been closed, while `A` has
received exactly one `Close()`; every other decoder object ever created has
also been closed exactly once. -/
theorem C5_load_then_load (env1 env2 : Env) (fires : Bool) (p q : MediaPlayer) (j : Int)
    (hT : Tidy p) (h0 : 0 ≤ p.current) (h1 : p.current < p.playlist.length)
    (hd1 : Decodes env1 (currentTrack p))
    (hj0 : 0 ≤ j) (hj1 : j < p.playlist.length)
    (hd2 : Decodes env2 (p.playlist.getD j.toNat ""))
    (hq : q = playlistOnSelected env2 j (playTrack env1 p) ∨
      (j = p.current ∧ q = playTrack env2 (playTrack env1 p)) ∨
      (j = Int.tmod (p.current + 1) p.playlist.length ∧
        q = nextTrack env2 fires (playTrack env1 p)) ∨
      (j = (if p.current - 1 < 0 then (p.playlist.length : Int) - 1 else p.current - 1) ∧
        q = prevTrack env2 fires (playTrack env1 p))) :
    (∃ len, (playTrack env1 p).streamer = some ⟨p.nextId, currentTrack p, len, 0⟩) ∧
    Tidy q ∧ q.current = j ∧
    ∃ sB, q.streamer = some sB ∧ sB.file = p.playlist.getD j.toNat "" ∧
      decodeFile env2 sB.file = some (some (sB.len, q.format)) ∧
      p.nextId < sB.id ∧ q.isPlaying = true ∧
      q.closed.count p.nextId = 1 ∧ q.closed.count sB.id = 0 := by
  obtain ⟨len, format, -, e⟩ := playTrack_success env1 p h0 h1 hd1
  have hT1 : Tidy (playTrack env1 p) := tidy_playTrack env1 p hT
  have hpl : (playTrack env1 p).playlist = p.playlist := playTrack_playlist env1 p
  have hcur : (playTrack env1 p).current = p.current := playTrack_current env1 p
  have hid : (playTrack env1 p).nextId = p.nextId + 1 := by rw [e]
  have hne : (playTrack env1 p).playlist.length ≠ 0 := by rw [hpl]; omega
  refine ⟨⟨len, by rw [e]⟩, ?_⟩
  have finish : ∀ q : MediaPlayer, Tidy q → (q.current = j ∧
      ∃ sB, q.streamer = some sB ∧ sB.file = p.playlist.getD j.toNat "" ∧
        decodeFile env2 sB.file = some (some (sB.len, q.format)) ∧
        p.nextId < sB.id ∧ sB.pos = 0 ∧ q.isPlaying = true) →
      Tidy q ∧ q.current = j ∧
      ∃ sB, q.streamer = some sB ∧ sB.file = p.playlist.getD j.toNat "" ∧
        decodeFile env2 sB.file = some (some (sB.len, q.format)) ∧
        p.nextId < sB.id ∧ q.isPlaying = true ∧
        q.closed.count p.nextId = 1 ∧ q.closed.count sB.id = 0 := by
    rintro q hq ⟨hcj, sB, hs, hf, hdec, hlt, -, hp⟩
    obtain ⟨c1, c2⟩ := tidy_counts q hq sB hs p.nextId hlt
    exact ⟨hq, hcj, sB, hs, hf, hdec, hlt, hp, c1, c2⟩
  clear e
  generalize playTrack env1 p = p1 at *
  have hsp : (stopTrack p1).playlist = p.playlist := by rw [stopTrack_playlist, hpl]
  have hsc : (stopTrack p1).current = p.current := by rw [stopTrack_current, hcur]
  have hsn : (stopTrack p1).nextId = p.nextId + 1 := by rw [stopTrack_nextId, hid]
  rcases hq with rfl | ⟨hj, rfl⟩ | ⟨hj, rfl⟩ | ⟨hj, rfl⟩
  · unfold playlistOnSelected
    apply finish (playTrack env2 { p1 with current := j })
      (tidy_playTrack env2 { p1 with current := j } (tidy_congr p1 _ rfl rfl rfl hT1))
    exact load_at env2 j { p1 with current := j } p.nextId _
      (by show p.nextId < p1.nextId; omega) rfl hj0
      (by show j < p1.playlist.length; rw [hpl]; exact hj1)
      (by show p1.playlist.getD j.toNat "" = _; rw [hpl]) hd2
  · apply finish _ (tidy_playTrack env2 p1 hT1)
    exact load_at env2 j p1 p.nextId _ (by omega) (by rw [hcur, hj]) hj0
      (by rw [hpl]; exact hj1) (by rw [hpl]) hd2
  · apply finish _ (tidy_nextTrack env2 fires p1 hT1)
    rw [nextTrack_eq env2 fires p1 hne]
    have hj' : Int.tmod ((stopTrack p1).current + 1) (stopTrack p1).playlist.length = j := by
      rw [hsc, hsp, hj]
    rw [hj']
    exact select_then_load env2 fires j { stopTrack p1 with current := j } p.nextId _
      (by show p.nextId < (stopTrack p1).nextId; omega) rfl hj0
      (by show j < (stopTrack p1).playlist.length; rw [hsp]; exact hj1)
      (by show (stopTrack p1).playlist.getD j.toNat "" = _; rw [hsp]) hd2
  · apply finish _ (tidy_prevTrack env2 fires p1 hT1)
    rw [prevTrack_eq env2 fires p1 hne]
    have hj' : (if (stopTrack p1).current - 1 < 0 then ((stopTrack p1).playlist.length : Int) - 1
        else (stopTrack p1).current - 1) = j := by
      rw [hsc, hsp, hj]
    rw [hj']
    exact select_then_load env2 fires j { stopTrack p1 with current := j } p.nextId _
      (by show p.nextId < (stopTrack p1).nextId; omega) rfl hj0
      (by show j < (stopTrack p1).playlist.length; rw [hsp]; exact hj1)
      (by show (stopTrack p1).playlist.getD j.toNat "" = _; rw [hsp]) hd2

theorem decodes_envAll (len rate : Nat) (f : String) (h : f = "a.mp3" ∨ f = "b.wav") :
    Decodes (envAll len rate) f := by
  rcases h with rfl | rfl
  · exact ⟨rfl, len, ⟨rate, 2, 2⟩, by
      have e : stringsToLower (filepathExt "a.mp3") = ".mp3" := by decide
      simp [decodeFile, e, envAll]⟩
  · exact ⟨rfl, len, ⟨rate, 2, 2⟩, by
      have e : stringsToLower (filepathExt "b.wav") = ".wav" := by decide
      simp [decodeFile, e, envAll]⟩

theorem idlePlayer_reachable : Reachable idlePlayer :=
  Reachable.step envNone (.openFiles true (.file "b.wav"))
    (Reachable.step envNone (.openFiles true (.file "a.mp3")) Reachable.init)

theorem threeFiles_reachable : Reachable threeFiles :=
  Reachable.step envNone (.openFiles true (.file "notes.txt"))
    (Reachable.step envNone (.openFiles true (.file "b.wav"))
      (Reachable.step envNone (.openFiles true (.file "a.mp3")) Reachable.init))

/-- Witness of `C5_load_then_load`: the playlist is `a.mp3`, `b.wav`,
`notes.txt` (which does not decode); `a.mp3` is loaded, then `nextTrack`
loads `b.wav`, the list widget re-entering `OnSelected`. -/
theorem C5_load_then_load_witness :
    (nextTrack envAB true (playTrack envAB threeFiles)).current = 1 ∧
    ∃ sB, (nextTrack envAB true (playTrack envAB threeFiles)).streamer = some sB ∧
      sB.file = "b.wav" ∧
      decodeFile envAB sB.file
        = some (some (sB.len, (nextTrack envAB true (playTrack envAB threeFiles)).format)) ∧
      threeFiles.nextId < sB.id ∧
      (nextTrack envAB true (playTrack envAB threeFiles)).isPlaying = true ∧
      (nextTrack envAB true (playTrack envAB threeFiles)).closed.count threeFiles.nextId = 1 ∧
      (nextTrack envAB true (playTrack envAB threeFiles)).closed.count sB.id = 0 :=
  (C5_load_then_load envAB envAB true threeFiles
    (nextTrack envAB true (playTrack envAB threeFiles)) 1
    (tidy_reachable threeFiles threeFiles_reachable) (by decide) (by decide)
    ⟨rfl, 2304, ⟨44100, 2, 2⟩, by decide⟩ (by decide) (by decide)
    ⟨rfl, 100, ⟨48000, 1, 2⟩, by decide⟩ (Or.inr (Or.inr (Or.inl ⟨by decide, rfl⟩)))).2.2

/-! ### Volume -/

theorem subOne_rounds (vol : F64) (h : vol.num ≤ 2 ^ vol.k) :
    Rounds (1 - vol.val) (-(subOne vol).val) := by
  have hk : (0 : ℚ) < 2 ^ vol.k := by positivity
  unfold subOne
  rw [if_neg (by omega)]
  by_cases he : vol.num = 2 ^ vol.k
  · rw [if_pos he]
    have hv : vol.val = 1 := by
      unfold F64.val
      rw [he]
      push_cast
      exact div_self (ne_of_gt hk)
    have h0 := f64round_rounds 0 1 (by norm_num)
    have e0 : -(SF64.val ⟨false, ⟨0, 0⟩⟩) = (f64round 0 1).val := by
      simp [SF64.val, F64.val, f64round]
    rw [hv, sub_self, e0]
    simpa using h0
  · rw [if_neg he]
    have hR := f64round_rounds (2 ^ vol.k - vol.num) (2 ^ vol.k) (by positivity)
    have e : ((2 ^ vol.k - vol.num : Nat) : ℚ) / ((2 ^ vol.k : Nat) : ℚ) = 1 - vol.val := by
      unfold F64.val
      rw [Nat.cast_sub h]
      push_cast
      field_simp
    rw [e] at hR
    simpa [SF64.val] using hR

/-- C6, as the code has it: called while no `beep.Volume` exists, the volume
handler returns the state unchanged, so nothing of the value is kept; the
`beep.Volume` created by the next successful load has `Volume = 0` whatever
the handler was given.  On an existing `beep.Volume` the handler stores the
float64 `vol - 1`. -/
theorem C6_volume_not_applied_on_load (env : Env) (p : MediaPlayer) (vol : F64)
    (h0 : 0 ≤ p.current) (h1 : p.current < p.playlist.length)
    (hd : Decodes env (currentTrack p)) :
    (p.volume = none → volumeCtrlOnChanged vol p = p) ∧
    (∃ w, (playTrack env (volumeCtrlOnChanged vol p)).volume = some w ∧
      w.volume = ⟨false, ⟨0, 0⟩⟩) ∧
    (∀ w, p.volume = some w →
      (volumeCtrlOnChanged vol p).volume = some { w with volume := subOne vol }) ∧
    (vol.num ≤ 2 ^ vol.k → Rounds (1 - vol.val) (-(subOne vol).val)) := by
  have hcur : (volumeCtrlOnChanged vol p).current = p.current := by
    unfold volumeCtrlOnChanged; split <;> rfl
  have hpl : (volumeCtrlOnChanged vol p).playlist = p.playlist := by
    unfold volumeCtrlOnChanged; split <;> rfl
  have htr : currentTrack (volumeCtrlOnChanged vol p) = currentTrack p := by
    unfold currentTrack; rw [hcur, hpl]
  obtain ⟨len, format, -, e⟩ := playTrack_success env (volumeCtrlOnChanged vol p)
    (by rw [hcur]; exact h0) (by rw [hcur, hpl]; exact h1) (by rw [htr]; exact hd)
  refine ⟨?_, ?_, ?_, subOne_rounds vol⟩
  · intro hv
    unfold volumeCtrlOnChanged
    simp only [hv]
  · rw [e]
    exact ⟨_, rfl, rfl⟩
  · intro w hw
    unfold volumeCtrlOnChanged
    simp only [hw]

/-- Witness of `C6_volume_not_applied_on_load`: the handler is called with 0
while nothing is loaded, then `a.mp3` is loaded. -/
theorem C6_volume_not_applied_on_load_witness :
    ∃ w, (playTrack (envAll 100 44100) (volumeCtrlOnChanged ⟨0, 0⟩ idlePlayer)).volume = some w ∧
      w.volume = ⟨false, ⟨0, 0⟩⟩ :=
  (C6_volume_not_applied_on_load (envAll 100 44100) idlePlayer ⟨0, 0⟩ (by decide) (by decide)
    (decodes_envAll 100 44100 _ (Or.inl (by decide)))).2.1

/-- C6 as stated fails: the slider is moved to its minimum, so the handler is
called with 0.  Called before the load, the handler leaves the state as it
was and the new Session has gain exponent 0; called on a loaded Session it
gives the gain exponent `-1`. -/
theorem C6_counterexample :
    volumeCtrlOnChanged ⟨0, 0⟩ idlePlayer = idlePlayer ∧
    ((playTrack (envAll 100 44100) (volumeCtrlOnChanged ⟨0, 0⟩ idlePlayer)).volume.map
      (fun w => w.volume.val)) = some 0 ∧
    ((volumeCtrlOnChanged ⟨0, 0⟩ (playTrack (envAll 100 44100) idlePlayer)).volume.map
      (fun w => w.volume.val)) = some (-1) := by
  have e1 : (playTrack (envAll 100 44100) (volumeCtrlOnChanged ⟨0, 0⟩ idlePlayer)).volume
      = some ⟨0, 2, ⟨false, ⟨0, 0⟩⟩⟩ := by decide
  have e2 : (volumeCtrlOnChanged ⟨0, 0⟩ (playTrack (envAll 100 44100) idlePlayer)).volume
      = some ⟨0, 2, ⟨true, ⟨4503599627370496, 52⟩⟩⟩ := by decide
  refine ⟨by decide, ?_, ?_⟩
  · rw [e1]; simp [SF64.val, F64.val]
  · rw [e2]; simp [SF64.val, F64.val]; norm_num

/-! ### Progress goroutines -/

/-- C7 fails on the code: after adding two files, pressing play and then
next, two `updateProgress` goroutines are running when the list widget never
re-enters `OnSelected`, and three when it does on every selection change
(first file added, `nextTrack`). -/
theorem C7_two_progress_tasks :
    (run (envAll 100 44100)
      [.openFiles false (.file "a.mp3"), .openFiles false (.file "b.wav"), .togglePlay,
        .nextTrack false] NewMediaPlayer).tasks = 2 ∧
    (run (envAll 100 44100)
      [.openFiles true (.file "a.mp3"), .openFiles true (.file "b.wav"), .togglePlay,
        .nextTrack true] NewMediaPlayer).tasks = 3 := by
  refine ⟨by decide, by decide⟩

/-! ### The playlist cursor -/

theorem cursor_step (env : Env) (c : Cmd) (p : MediaPlayer)
    (h : (p.playlist = [] ∧ p.current = -1) ∨ (0 ≤ p.current ∧ p.current < p.playlist.length)) :
    ((step env c p).playlist = [] ∧ (step env c p).current = -1) ∨
    (0 ≤ (step env c p).current ∧ (step env c p).current < (step env c p).playlist.length) := by
  cases c with
  | openFiles fires ch =>
    cases ch with
    | failed => exact h
    | cancelled => exact h
    | file path =>
      right
      unfold step openFiles
      simp only
      split
      · have hc := playlistSelect_current env fires 0
          { p with playlist := p.playlist ++ [path], current := 0 } rfl
        have hp := playlistSelect_playlist env fires 0
          { p with playlist := p.playlist ++ [path], current := 0 }
        rw [hc, hp]
        simp
      · rename_i hne
        have hne' : p.current ≠ -1 := hne
        simp only [List.length_append, List.length_singleton]
        push_cast
        rcases h with ⟨-, h⟩ | h
        · exact absurd h hne'
        · omega
  | clearPlaylist => left; exact ⟨rfl, rfl⟩
  | playTrack =>
    unfold step
    simp only [playTrack_playlist, playTrack_current]
    exact h
  | togglePlay =>
    unfold step
    simp only [togglePlay_playlist, togglePlay_current]
    exact h
  | stopTrack =>
    unfold step
    simp only [stopTrack_playlist, stopTrack_current]
    exact h
  | nextTrack fires =>
    unfold step
    simp only
    rcases h with ⟨h, h'⟩ | h
    · left
      have : nextTrack env fires p = p := by unfold nextTrack; simp [h]
      rw [this]; exact ⟨h, h'⟩
    · right
      have hne : p.playlist.length ≠ 0 := by omega
      rw [nextTrack_current env fires p hne, nextTrack_playlist,
        tmod_succ_cursor _ _ h.1 h.2]
      split <;> omega
  | prevTrack fires =>
    unfold step
    simp only
    rcases h with ⟨h, h'⟩ | h
    · left
      have : prevTrack env fires p = p := by unfold prevTrack; simp [h]
      rw [this]; exact ⟨h, h'⟩
    · right
      have hne : p.playlist.length ≠ 0 := by omega
      rw [prevTrack_current env fires p hne, prevTrack_playlist]
      split <;> omega

/-- C8: in every state reachable from `NewMediaPlayer` the cursor is the
sentinel `-1` or a valid index, and it is the sentinel exactly when the
playlist is empty. -/
theorem C8_cursor_invariant (p : MediaPlayer) (h : Reachable p) :
    (p.current = -1 ∨ (0 ≤ p.current ∧ p.current < p.playlist.length)) ∧
    (p.current = -1 ↔ p.playlist = []) := by
  have key : (p.playlist = [] ∧ p.current = -1) ∨
      (0 ≤ p.current ∧ p.current < p.playlist.length) := by
    induction h with
    | init => left; exact ⟨rfl, rfl⟩
    | step env c _ ih => exact cursor_step env c _ ih
  rcases key with ⟨h1, h2⟩ | ⟨h1, h2⟩
  · exact ⟨Or.inl h2, fun _ => h1, fun _ => h2⟩
  · refine ⟨Or.inr ⟨h1, h2⟩, fun h3 => by omega, fun h3 => ?_⟩
    rw [h3] at h2
    simp at h2
    omega

/-- Witness of `C8_cursor_invariant`: two files added. -/
theorem C8_cursor_invariant_witness :
    (idlePlayer.current = -1 ∨ (0 ≤ idlePlayer.current ∧
      idlePlayer.current < idlePlayer.playlist.length)) ∧
    (idlePlayer.current = -1 ↔ idlePlayer.playlist = []) :=
  C8_cursor_invariant idlePlayer idlePlayer_reachable

/-- C9: with a valid cursor, `nextTrack` then `prevTrack` and `prevTrack`
then `nextTrack` both return the cursor to where it was; `prevTrack` wraps
from 0 to the last index and `nextTrack` from the last index to 0; on an
empty playlist both leave the state unchanged. -/
theorem C9_next_prev_roundtrip (e1 e2 : Env) (f1 f2 : Bool) (p : MediaPlayer)
    (h0 : 0 ≤ p.current) (h1 : p.current < p.playlist.length) :
    (prevTrack e2 f2 (nextTrack e1 f1 p)).current = p.current ∧
    (nextTrack e2 f2 (prevTrack e1 f1 p)).current = p.current ∧
    (p.current = 0 → (prevTrack e1 f1 p).current = (p.playlist.length : Int) - 1) ∧
    (p.current = (p.playlist.length : Int) - 1 → (nextTrack e1 f1 p).current = 0) ∧
    (∀ q : MediaPlayer, q.playlist = [] → nextTrack e1 f1 q = q ∧ prevTrack e1 f1 q = q) := by
  have hne : p.playlist.length ≠ 0 := by omega
  have hn := nextTrack_current e1 f1 p hne
  have hp := prevTrack_current e1 f1 p hne
  rw [tmod_succ_cursor _ _ h0 h1] at hn
  refine ⟨?_, ?_, ?_, ?_, ?_⟩
  · rw [prevTrack_current e2 f2 _ (by rw [nextTrack_playlist]; exact hne), nextTrack_playlist, hn]
    split <;> split <;> omega
  · have hr0 : 0 ≤ (prevTrack e1 f1 p).current := by rw [hp]; split <;> omega
    have hr1 : (prevTrack e1 f1 p).current < (prevTrack e1 f1 p).playlist.length := by
      rw [hp, prevTrack_playlist]; split <;> omega
    rw [nextTrack_current e2 f2 _ (by rw [prevTrack_playlist]; exact hne),
      tmod_succ_cursor _ _ hr0 hr1, prevTrack_playlist, hp]
    split <;> split <;> omega
  · intro hz
    rw [hp, hz]
    simp
  · intro hl
    rw [hn, if_pos (by omega)]
  · intro q hq
    constructor
    · unfold nextTrack; simp [hq]
    · unfold prevTrack; simp [hq]

/-- Witness of `C9_next_prev_roundtrip`: two files, cursor on the first. -/
theorem C9_next_prev_roundtrip_witness :
    (prevTrack (envAll 100 44100) true (nextTrack (envAll 100 44100) true idlePlayer)).current
      = idlePlayer.current :=
  (C9_next_prev_roundtrip (envAll 100 44100) (envAll 100 44100) true true idlePlayer
    (by decide) (by decide)).1

/-! ## The progress label -/

theorem val_nonneg (x : F64) : 0 ≤ x.val := by
  unfold F64.val
  positivity

theorem ofNat_num_pos (n : Nat) (h1 : 0 < n) (h2 : n ≤ 2 ^ 53) : 0 < (F64.ofNat n).num := by
  have hv := ofNat_val n h2
  rcases Nat.eq_zero_or_pos (F64.ofNat n).num with h | h
  · exfalso
    unfold F64.val at hv
    rw [h] at hv
    have h3 : (n : ℚ) = 0 := by simpa using hv.symm
    have h4 : n = 0 := by exact_mod_cast h3
    omega
  · exact h

/-- The sum `float64(D / unit) + float64(D % unit) / unit` truncates to `D / unit`
when the quotient leaves `g` spare bits and `unit ≤ 2 ^ g`. -/
theorem quot_add_frac (D unit g : Nat) (hu0 : 0 < unit) (hu : unit ≤ 2 ^ g)
    (hu53 : unit ≤ 2 ^ 53) (hq : (D / unit + 1) * 2 ^ g ≤ 2 ^ 53) :
    (F64.add (F64.ofNat (D / unit)) (F64.div (F64.ofNat (D % unit)) (F64.ofNat unit))).trunc
      = D / unit := by
  have hg : (0 : ℚ) < 2 ^ g := by positivity
  have hgn : 0 < 2 ^ g := by positivity
  have h2g : 2 ^ g ≤ 2 ^ 53 := le_trans (Nat.le_mul_of_pos_left _ (Nat.succ_pos _)) hq
  have hsec53 : D / unit ≤ 2 ^ 53 := by
    have : D / unit + 1 ≤ (D / unit + 1) * 2 ^ g := Nat.le_mul_of_pos_right _ hgn
    omega
  have hns : D % unit < unit := Nat.mod_lt _ hu0
  have huq : (0 : ℚ) < unit := by exact_mod_cast hu0
  have hRy := div_rounds (F64.ofNat (D % unit)) (F64.ofNat unit) (ofNat_num_pos unit hu0 hu53)
  rw [ofNat_val _ (by omega), ofNat_val _ hu53] at hRy
  have hRs := add_rounds (F64.ofNat (D / unit)) (F64.div (F64.ofNat (D % unit)) (F64.ofNat unit))
  rw [ofNat_val _ hsec53] at hRs
  set y := F64.div (F64.ofNat (D % unit)) (F64.ofNat unit) with hy
  have hθ : Rep (((2 ^ g - 1 : Nat) : ℚ) / 2 ^ g) := ⟨2 ^ g - 1, 0, g, by omega, by simp⟩
  have hcast : ((2 ^ g - 1 : Nat) : ℚ) = 2 ^ g - 1 := by
    rw [Nat.cast_sub hgn]; push_cast; ring
  have hfrac : ((D % unit : Nat) : ℚ) / unit ≤ ((2 ^ g - 1 : Nat) : ℚ) / 2 ^ g := by
    rw [hcast, div_le_div_iff huq hg]
    have h1 : ((D % unit : Nat) : ℚ) + 1 ≤ unit := by exact_mod_cast hns
    have h2 : (unit : ℚ) ≤ 2 ^ g := by exact_mod_cast hu
    have h3 : (0 : ℚ) ≤ ((D % unit : Nat) : ℚ) := by positivity
    nlinarith
  have hyle := hRy.1 _ hθ hfrac
  have hy0 := val_nonneg y
  have hlow : D / unit ≤ (F64.add (F64.ofNat (D / unit)) y).trunc :=
    le_trunc _ _ (hRs.2.1 _ (rep_natCast _ hsec53) (by linarith))
  have hU : Rep ((((D / unit + 1) * 2 ^ g - 1 : Nat) : ℚ) / 2 ^ g) :=
    ⟨(D / unit + 1) * 2 ^ g - 1, 0, g, by omega, by simp⟩
  have hpos : 1 ≤ (D / unit + 1) * 2 ^ g := Nat.mul_pos (Nat.succ_pos _) hgn
  have hcastU : (((D / unit + 1) * 2 ^ g - 1 : Nat) : ℚ) = ((D / unit : Nat) + 1) * 2 ^ g - 1 := by
    rw [Nat.cast_sub hpos]; push_cast; ring
  have hup := hRs.1 _ hU (by
    rw [hcastU]
    rw [hcast] at hyle
    have e : (((D / unit : Nat) : ℚ) + 1) * 2 ^ g - 1 = ((D / unit : Nat) : ℚ) * 2 ^ g + (2 ^ g - 1) := by
      ring
    rw [e, add_div, mul_div_assoc, div_self (ne_of_gt hg), mul_one]
    linarith)
  have hlt : (F64.add (F64.ofNat (D / unit)) y).trunc < D / unit + 1 := by
    apply trunc_lt
    refine lt_of_le_of_lt hup ?_
    rw [hcastU, div_lt_iff hg]
    push_cast
    linarith
  omega

/-- The duration computed for `x` samples lies in the second `x / r`. -/
theorem sampleDuration_bounds (x r : Nat) (hr1 : 1 ≤ r) (hr : r ≤ 10 ^ 9)
    (hx : x * 5 ^ 9 ≤ 2 ^ 53) (hs : (x / r + 1) * 10 ^ 9 ≤ 2 ^ 53) :
    10 ^ 9 * (x / r) ≤ sampleDuration x r ∧ sampleDuration x r < 10 ^ 9 * (x / r + 1) := by
  have hrq : (0 : ℚ) < r := by exact_mod_cast hr1
  have hx53 : x ≤ 2 ^ 53 := by omega
  have hR1 := mul_rounds (F64.ofNat timeSecond) (F64.ofNat x)
  rw [ofNat_val timeSecond (by decide), ofNat_val x hx53] at hR1
  have hrep1 : Rep (((timeSecond : Nat) : ℚ) * x) := ⟨x * 5 ^ 9, 9, 0, hx, by
    unfold timeSecond; push_cast; ring⟩
  have hv1 := hR1.exact hrep1
  have hR2 := div_rounds (F64.mul (F64.ofNat timeSecond) (F64.ofNat x)) (F64.ofNat r)
    (ofNat_num_pos r hr1 (by omega))
  rw [hv1, ofNat_val r (by omega)] at hR2
  have hdm := Nat.div_add_mod x r
  have hml := Nat.mod_lt x hr1
  have hsr : x / r * r ≤ x := Nat.div_mul_le_self x r
  have hsr2 : x + 1 ≤ (x / r + 1) * r := by nlinarith
  have hsrq : ((x / r : Nat) : ℚ) * r ≤ x := by exact_mod_cast hsr
  have hsr2q : (x : ℚ) + 1 ≤ (((x / r : Nat) : ℚ) + 1) * r := by exact_mod_cast hsr2
  have hs1 : 10 ^ 9 * (x / r) ≤ 2 ^ 53 := by
    generalize x / r = s at hs
    omega
  have hs2 : 10 ^ 9 * (x / r + 1) - 1 ≤ 2 ^ 53 := by
    generalize x / r = s at hs
    omega
  have hs3 : 1 ≤ 10 ^ 9 * (x / r + 1) := by
    generalize x / r = s
    omega
  have hlow := hR2.2.1 _ (rep_natCast (10 ^ 9 * (x / r)) hs1) (by
    rw [le_div_iff hrq]
    unfold timeSecond
    push_cast
    have h9 := mul_le_mul_of_nonneg_left hsrq (show (0 : ℚ) ≤ 1000000000 by norm_num)
    linarith)
  have hup := hR2.1 _ (rep_natCast (10 ^ 9 * (x / r + 1) - 1) hs2) (by
    rw [div_le_iff hrq]
    have hc : ((10 ^ 9 * (x / r + 1) - 1 : Nat) : ℚ) = 10 ^ 9 * (((x / r : Nat) : ℚ) + 1) - 1 := by
      rw [Nat.cast_sub hs3]; push_cast; ring
    rw [hc]
    unfold timeSecond
    push_cast
    have h9 := mul_le_mul_of_nonneg_left hsr2q (show (0 : ℚ) ≤ 1000000000 by norm_num)
    have hr9' : (r : ℚ) ≤ 1000000000 := by exact_mod_cast hr
    have e9 : (10 : ℚ) ^ 9 = 1000000000 := by norm_num
    rw [e9]
    linarith)
  constructor
  · exact le_trunc _ _ hlow
  · have := trunc_lt (F64.div (F64.mul (F64.ofNat timeSecond) (F64.ofNat x)) (F64.ofNat r))
      (10 ^ 9 * (x / r + 1)) (by
        refine lt_of_le_of_lt hup ?_
        have : 10 ^ 9 * (x / r + 1) - 1 < 10 ^ 9 * (x / r + 1) := by
          generalize x / r = s
          omega
        exact_mod_cast this)
    exact this

/-- Seconds and minutes shown for `x` samples at `r` Hz. -/
theorem label_fields (x r : Nat) (hr1 : 1 ≤ r) (hr : r ≤ 10 ^ 9)
    (hx : x * 5 ^ 9 ≤ 2 ^ 53) (hd : x < 7864320 * r) :
    (durationSeconds (sampleDuration x r)).trunc = x / r ∧
    (durationMinutes (sampleDuration x r)).trunc = x / (60 * r) := by
  have hs : x / r < 7864320 := (Nat.div_lt_iff_lt_mul hr1).mpr hd
  obtain ⟨hb1, hb2⟩ := sampleDuration_bounds x r hr1 hr hx (by
    generalize x / r = s at hs
    omega)
  have hsec : sampleDuration x r / 1000000000 = x / r := by
    generalize x / r = s at *
    omega
  have hmin : sampleDuration x r / 60000000000 = x / (60 * r) := by
    have e1 : sampleDuration x r / 60000000000 = sampleDuration x r / 1000000000 / 60 := by
      rw [Nat.div_div_eq_div_mul]
    have e2 : x / (60 * r) = x / r / 60 := by
      rw [Nat.div_div_eq_div_mul, Nat.mul_comm]
    rw [e1, e2, hsec]
  constructor
  · have h := quot_add_frac (sampleDuration x r) 1000000000 30 (by norm_num) (by norm_num)
      (by norm_num) (by
        rw [hsec]
        generalize x / r = s at hs
        omega)
    unfold durationSeconds timeSecond
    rw [h]
    exact hsec
  · have h := quot_add_frac (sampleDuration x r) 60000000000 36 (by norm_num) (by norm_num)
      (by norm_num) (by
        rw [hmin, Nat.mul_comm 60 r, ← Nat.div_div_eq_div_mul]
        generalize x / r = s at hs
        omega)
    have e : timeMinute = 60000000000 := by decide
    unfold durationMinutes
    rw [e, h]
    exact hmin

theorem fmt02d_twoDigits : ∀ v, v < 60 → fmt02d v = twoDigits v := by
  decide

/-- C10, as the code has it: on a playing Session of at most `2 ^ 53 / 5 ^ 9`
samples (4 611 686 018) and under 7 864 320 seconds, at a sample rate of at
most `10 ^ 9` Hz, a tick reports a fraction in `[0, 1]` and the label
`MM:SS / MM:SS` with `SS = ⌊x / r⌋ mod 60` and `MM = ⌊x / (60 r)⌋ mod 60`
for `x` the position and the length, each as two decimal digits. -/
theorem C10_progress_label (p : MediaPlayer) (s : Stream)
    (hs : p.streamer = some s) (hplay : p.isPlaying = true)
    (hr1 : 1 ≤ p.format.sampleRate) (hr : p.format.sampleRate ≤ 10 ^ 9)
    (hL : 1 ≤ s.len) (hp : s.pos ≤ s.len) (hL53 : s.len * 5 ^ 9 ≤ 2 ^ 53)
    (hdur : s.len < 7864320 * p.format.sampleRate) :
    ∃ frac, updateProgressTick p = some (frac,
        twoDigits (s.pos / (60 * p.format.sampleRate) % 60) ++ ":" ++
        twoDigits (s.pos / p.format.sampleRate % 60) ++ " / " ++
        twoDigits (s.len / (60 * p.format.sampleRate) % 60) ++ ":" ++
        twoDigits (s.len / p.format.sampleRate % 60)) ∧
      0 ≤ frac.val ∧ frac.val ≤ 1 := by
  obtain ⟨a1, a2⟩ := label_fields s.pos p.format.sampleRate hr1 hr (by omega) (by omega)
  obtain ⟨b1, b2⟩ := label_fields s.len p.format.sampleRate hr1 hr hL53 hdur
  refine ⟨F64.div (F64.ofNat s.pos) (F64.ofNat s.len), ?_, val_nonneg _, ?_⟩
  · unfold updateProgressTick
    rw [hs]
    simp only [hplay, a1, a2, b1, b2, sprintfLabel]
    rw [fmt02d_twoDigits _ (Nat.mod_lt _ (by norm_num)),
      fmt02d_twoDigits _ (Nat.mod_lt _ (by norm_num)),
      fmt02d_twoDigits _ (Nat.mod_lt _ (by norm_num)),
      fmt02d_twoDigits _ (Nat.mod_lt _ (by norm_num))]
    simp
  · have hR := div_rounds (F64.ofNat s.pos) (F64.ofNat s.len) (ofNat_num_pos s.len hL (by omega))
    rw [ofNat_val _ (by omega), ofNat_val _ (by omega)] at hR
    have hLq : (0 : ℚ) < s.len := by exact_mod_cast hL
    have hpq : (s.pos : ℚ) ≤ s.len := by exact_mod_cast hp
    have := hR.1 1 (by simpa using rep_natCast 1 (by norm_num)) (by
      rw [div_le_iff hLq]; linarith)
    exact this

set_option maxRecDepth 100000 in
/-- Witness of `C10_progress_label`: 100 s of a 300 s track at 44100 Hz. -/
theorem C10_progress_label_witness :
    ∃ frac, updateProgressTick (loadedPlayer 13230000 44100 4410000) = some (frac,
        twoDigits (4410000 / (60 * 44100) % 60) ++ ":" ++
        twoDigits (4410000 / 44100 % 60) ++ " / " ++
        twoDigits (13230000 / (60 * 44100) % 60) ++ ":" ++
        twoDigits (13230000 / 44100 % 60)) ∧
      0 ≤ frac.val ∧ frac.val ≤ 1 :=
  C10_progress_label (loadedPlayer 13230000 44100 4410000) ⟨0, "a.mp3", 13230000, 4410000⟩
    (by decide)
    (by decide) (by decide) (by decide) (by decide) (by decide) (by decide) (by decide)

set_option maxRecDepth 100000 in
/-- C10 as stated fails: at the end of a stream of 18 446 897 700 samples at
44100 Hz (418 297 s) the label reads `11:36 / 11:36`, while
`⌊x / r⌋ mod 60 = 37`. -/
theorem C10_counterexample :
    (updateProgressTick (loadedPlayer 18446897700 44100 18446897700)).map Prod.snd
      = some "11:36 / 11:36" ∧
    18446897700 / 44100 % 60 = 37 ∧ 18446897700 / (60 * 44100) % 60 = 11 := by
  refine ⟨by decide, by decide, by decide⟩

end EliteMediaPlayer
